import Mathlib

/-!
Verification of the stavrobot signal bridge (src/signal-bridge/bridge.py and
src/signal-bridge/markdown_to_signal.py).

The Python modules are shallowly embedded: pure functions become Lean
functions, the stateful markdown converter becomes explicit state passing
over a `ConvSt` record, and every network/O-S interaction (the agent HTTP
call, the signal-cli JSON-RPC endpoint, the transcription API, `json.loads`,
the mistune markdown parser, base64 validation) is an explicit parameter of
the function that performs it, so that each theorem quantifies over the
behaviour of the external world.  JSON values are modelled by the inductive
`JVal`; Python truthiness and `dict.get` are modelled by `jTruthy` and
`dictGet`.
-/

namespace Stavrobot

/-! ### UTF-16 and string helpers (markdown_to_signal.py, utf16_length and str methods) -/

/-- Width in UTF-16 code units of one code point: code points at or above
0x10000 need a surrogate pair.  Mirrors the summand in `utf16_length`. -/
def charW (c : Char) : Nat := if 0x10000 ≤ c.val.toNat then 2 else 1

/-- UTF-16 length of a list of code points. -/
def u16 (l : List Char) : Nat := (l.map charW).sum

/-- The number of UTF-16 code units in a string; embedding of
`utf16_length` in markdown_to_signal.py. -/
def utf16Length (s : String) : Nat := u16 s.data

/-- Remove all trailing newline characters, on code-point lists: the effect
of Python `str.rstrip` with the argument `"\n"`. -/
def dropTrailNL (l : List Char) : List Char :=
  (l.reverse.dropWhile (fun c => c == '\n')).reverse

/-- Python `text.rstrip("\n")` on strings. -/
def rstripNewlines (s : String) : String := ⟨dropTrailNL s.data⟩

/-- Python `s.endswith(suf)`: suffix test on the code points. -/
def endsWithStr (s suf : String) : Bool := suf.data.isSuffixOf s.data

/-- Python `s.startswith(pre)`: the corresponding test on code points. -/
def startsWithStr (s pre : String) : Bool := pre.data.isPrefixOf s.data

/-- True when the list does not end with a newline character. -/
def noNL (l : List Char) : Bool :=
  match l.getLast? with
  | some c => c != '\n'
  | none => true

/-- Join a list of strings with a separator (used to state expected texts). -/
def joinSep (sep : String) : List String → String
  | [] => ""
  | [x] => x
  | x :: rest => x ++ sep ++ joinSep sep rest

/-! ### Style spans and converter state (markdown_to_signal.py, class _Converter) -/

/-- One Signal text style annotation.  The Python code stores these as the
string `f"{start}:{length}:{style}"`; `spanEncode` below produces that
encoding.  `start` and `length` are in UTF-16 code units. -/
structure Span where
  start : Nat
  length : Nat
  style : String

/-- The wire encoding of a span used in the `textStyle` RPC field,
mirroring the f-string in `_Converter._apply_style`. -/
def spanEncode (sp : Span) : String :=
  toString sp.start ++ ":" ++ toString sp.length ++ ":" ++ sp.style

/-- The mutable state of `_Converter`: the accumulated plain text and the
list of recorded style annotations. -/
structure ConvSt where
  text : String
  styles : List Span

/-- `_Converter._append`. -/
def appendText (s : String) (st : ConvSt) : ConvSt := { st with text := st.text ++ s }

/-- `_Converter._apply_style`: record a style annotation from `start` to the
current position (`length = utf16_length(self.text) - start_offset`) when
its length is positive. -/
def applyStyle (style : String) (start : Nat) (st : ConvSt) : ConvSt :=
  if 0 < utf16Length st.text - start then
    { st with styles := st.styles ++
        [{ start := start, length := utf16Length st.text - start, style := style }] }
  else st

/-- The blank-line separator prelude shared by `_handle_paragraph`,
`_handle_heading`, `_handle_block_code`, `_handle_list` and
`_handle_block_quote`: `if self.text and not self.text.endswith("\n\n"): ...`. -/
def ensureBlank (st : ConvSt) : ConvSt :=
  if st.text = "" then st
  else if endsWithStr st.text "\n\n" then st
  else if endsWithStr st.text "\n" then appendText "\n" st
  else appendText "\n\n" st

/-- The trailing part of `_handle_block_quote`, which has no emptiness
guard: `if not self.text.endswith("\n\n"): ...`. -/
def ensureTrailingBlank (st : ConvSt) : ConvSt :=
  if endsWithStr st.text "\n\n" then st
  else if endsWithStr st.text "\n" then appendText "\n" st
  else appendText "\n\n" st

/-! ### The mistune AST (produced by the external `mistune` library)

`mistune.create_markdown(renderer="ast", plugins=["strikethrough"])` is a
third-party parser; the walker in markdown_to_signal.py consumes its node
dictionaries.  `Node` is the corresponding tree shape: one constructor per
`node["type"]` handled by `_Converter._walk_node`, plus `unknown` for the
fall-back arm.  The parser itself is kept abstract (a `String → List Node`
parameter) in the theorems about `convert_markdown`. -/

inductive Node where
  | paragraph (children : List Node)
  | heading (children : List Node)
  | strong (children : List Node)
  | emphasis (children : List Node)
  | strikethrough (children : List Node)
  | codespan (raw : String)
  | blockCode (raw : String)
  | text (raw : String)
  | softbreak
  | linebreak
  | link (url : String) (children : List Node)
  | image (src : String)
  | list (ordered : Bool) (first? : Option Nat) (children : List Node)
  | listItem (children : List Node)
  | blockQuote (children : List Node)
  | thematicBreak
  | blankLine
  | unknown (children : List Node)

/-- `node.get("children", [])` as used by `_walk_list_item` and the
unknown-node fallback. -/
def getChildren : Node → List Node
  | .paragraph cs | .heading cs | .strong cs | .emphasis cs | .strikethrough cs
  | .link _ cs | .list _ _ cs | .listItem cs | .blockQuote cs | .unknown cs => cs
  | _ => []

theorem sizeOf_getChildren_le (n : Node) : sizeOf (getChildren n) ≤ sizeOf n := by
  cases n <;> simp [getChildren]

/-- `attrs.get("start", 1) or 1` in `_handle_list` / `_handle_nested_list`:
a missing or zero (falsy) start index becomes 1. -/
def listStart (o : Option Nat) : Nat :=
  match o with
  | none => 1
  | some k => if k = 0 then 1 else k

mutual

/-- `_Converter._walk_node`: dispatch on the node type. -/
def walkNode (node : Node) (st : ConvSt) : ConvSt :=
  match node with
  | .paragraph cs => appendText "\n\n" (walkNodes cs (ensureBlank st))
  | .heading cs =>
      let st1 := ensureBlank st
      appendText "\n\n" (applyStyle "BOLD" (utf16Length st1.text) (walkNodes cs st1))
  | .strong cs => applyStyle "BOLD" (utf16Length st.text) (walkNodes cs st)
  | .emphasis cs => applyStyle "ITALIC" (utf16Length st.text) (walkNodes cs st)
  | .strikethrough cs => applyStyle "STRIKETHROUGH" (utf16Length st.text) (walkNodes cs st)
  | .codespan raw => applyStyle "MONOSPACE" (utf16Length st.text) (appendText raw st)
  | .blockCode raw =>
      let st1 := ensureBlank st
      appendText "\n\n"
        (applyStyle "MONOSPACE" (utf16Length st1.text) (appendText (rstripNewlines raw) st1))
  | .text raw => appendText raw st
  | .softbreak => appendText "\n" st
  | .linebreak => appendText "\n" st
  | .link url cs =>
      -- `_handle_link`: the children are rendered into a scratch buffer
      -- (saved text and styles, both reset to empty, then restored), so the
      -- scratch styles are discarded and only the scratch text is spliced in.
      let linkText := (walkNodes cs { text := "", styles := [] }).text
      if linkText = "" ∨ linkText = url then appendText url st
      else appendText (linkText ++ " (" ++ url ++ ")") st
  | .image src => appendText src st
  | .list ordered first? cs =>
      appendText "\n" (walkListItems ordered (listStart first?) 0 cs (ensureBlank st))
  | .listItem cs =>
      -- not a case of `_walk_node`; it reaches the fallback arm, which walks
      -- the children (`walkNodes [] st = st`, matching the falsy-children skip).
      walkNodes cs st
  | .blockQuote cs => ensureTrailingBlank (walkNodes cs (ensureBlank st))
  | .thematicBreak =>
      appendText "---\n\n"
        (if st.text = "" then st
         else if endsWithStr st.text "\n" then st
         else appendText "\n" st)
  | .blankLine => st
  | .unknown cs => walkNodes cs st
termination_by 2 * sizeOf node

/-- `_Converter.walk_nodes`. -/
def walkNodes : List Node → ConvSt → ConvSt
  | [], st => st
  | n :: rest, st => walkNodes rest (walkNode n st)
termination_by ns _ => 2 * sizeOf ns

/-- The item loop of `_handle_list`: prefix each item with `"N. "` or `"- "`. -/
def walkListItems : Bool → Nat → Nat → List Node → ConvSt → ConvSt
  | _, _, _, [], st => st
  | ordered, firstIdx, idx, item :: rest, st =>
      let pre := if ordered then toString (firstIdx + idx) ++ ". " else "- "
      walkListItems ordered firstIdx (idx + 1) rest (walkListItem item (appendText pre st))
termination_by _ _ _ items _ => 2 * sizeOf items

/-- `_Converter._walk_list_item`. -/
def walkListItem (item : Node) (st : ConvSt) : ConvSt :=
  appendText "\n" (walkItemChildren (getChildren item) st)
termination_by 2 * sizeOf item + 1
decreasing_by
  simp_wf
  have h := sizeOf_getChildren_le item
  omega

/-- The loop body of `_walk_list_item`, one child at a time. -/
def walkItemChildren : List Node → ConvSt → ConvSt
  | [], st => st
  | c :: rest, st => walkItemChildren rest (walkItemChild c st)
termination_by cs _ => 2 * sizeOf cs

/-- The per-child dispatch inside `_walk_list_item`: paragraphs are inlined,
nested lists start on a new line with indentation, anything else goes
through `_walk_node`. -/
def walkItemChild (c : Node) (st : ConvSt) : ConvSt :=
  match c with
  | .paragraph ps => walkNodes ps st
  | .list ordered first? items =>
      walkNestedItems ordered (listStart first?) 0 items (appendText "\n" st)
  | other => walkNode other st
termination_by 2 * sizeOf c + 1

/-- `_Converter._handle_nested_list`: two-space indentation. -/
def walkNestedItems : Bool → Nat → Nat → List Node → ConvSt → ConvSt
  | _, _, _, [], st => st
  | ordered, firstIdx, idx, item :: rest, st =>
      let pre := if ordered then "  " ++ toString (firstIdx + idx) ++ ". " else "  - "
      walkNestedItems ordered firstIdx (idx + 1) rest (walkListItem item (appendText pre st))
termination_by _ _ _ items _ => 2 * sizeOf items

end

/-- `convert_markdown` after parsing: walk the AST from the empty state and
trim trailing newlines from the accumulated text. -/
def convertAst (ns : List Node) : String × List Span :=
  let fin := walkNodes ns { text := "", styles := [] }
  (rstripNewlines fin.text, fin.styles)

/-- `convert_markdown`, with the mistune parser abstracted as `parse`; the
styles are returned in their string encoding exactly as the Python code
produces them. -/
def convertMarkdown (parse : String → List Node) (text : String) : String × List String :=
  let r := convertAst (parse text)
  (r.1, r.2.map spanEncode)

/-! ### Context-free fragments of inline nodes

Inline nodes (text runs, breaks, code spans, images, links and styled runs)
append text that does not depend on the buffer already accumulated; `frag`
computes that appended fragment.  `inlineShape` delimits this inline subset,
and `goodNode` is the well-formedness condition under which the span
invariant of claim C7 is proved: every styled run, heading and code span in
the tree appends text that does not end in a newline.  CommonMark inline
parsing guarantees this for every AST mistune produces (emphasis cannot
close after whitespace, ATX heading content is a single line, and line
endings inside code spans are converted to spaces). -/

mutual

def frag (n : Node) : String :=
  match n with
  | .text raw => raw
  | .softbreak => "\n"
  | .linebreak => "\n"
  | .codespan raw => raw
  | .image src => src
  | .link url cs =>
      let linkText := (walkNodes cs { text := "", styles := [] }).text
      if linkText = "" ∨ linkText = url then url else linkText ++ " (" ++ url ++ ")"
  | .strong cs => fragList cs
  | .emphasis cs => fragList cs
  | .strikethrough cs => fragList cs
  | _ => ""

def fragList : List Node → String
  | [] => ""
  | n :: rest => frag n ++ fragList rest

end

mutual

def inlineShape (n : Node) : Bool :=
  match n with
  | .text _ | .softbreak | .linebreak | .codespan _ | .image _ | .link _ _ => true
  | .strong cs | .emphasis cs | .strikethrough cs => inlineShapeList cs
  | _ => false

def inlineShapeList : List Node → Bool
  | [] => true
  | n :: rest => inlineShape n && inlineShapeList rest

end

mutual

def goodNode (n : Node) : Bool :=
  match n with
  | .text _ => true
  | .softbreak | .linebreak => true
  | .image _ => true
  | .thematicBreak | .blankLine => true
  | .codespan raw => noNL raw.data
  | .blockCode _ => true
  | .link _ cs => goodList cs
  | .strong cs | .emphasis cs | .strikethrough cs =>
      goodList cs && inlineShapeList cs && noNL (fragList cs).data
  | .heading cs => goodList cs && inlineShapeList cs && noNL (fragList cs).data
  | .paragraph cs | .blockQuote cs | .listItem cs | .unknown cs => goodList cs
  | .list _ _ items => goodList items

def goodList : List Node → Bool
  | [] => true
  | n :: rest => goodNode n && goodList rest

end

/-! ### JSON values, Python truthiness and dict access (bridge.py inputs) -/

/-- A JSON value as produced by `json.loads`: the payloads that flow through
bridge.py (SSE event data, request bodies, agent responses).  Numbers are
modelled as integers; no claim involves fractional JSON numbers. -/
inductive JVal where
  | null
  | bool (b : Bool)
  | num (n : Int)
  | str (s : String)
  | arr (items : List JVal)
  | obj (fields : List (String × JVal))

/-- Association-list lookup for JSON objects (`dict` access; keys produced
by `json.loads` are unique). -/
def lookupField : List (String × JVal) → String → Option JVal
  | [], _ => none
  | (k, v) :: rest, key => if k = key then some v else lookupField rest key

/-- Python `d.get(key)` on a decoded JSON value, returning `none` both when
the key is missing and when the value is not a dict.  (bridge.py only ever
applies `.get` to dict-shaped payloads from signal-cli.) -/
def dictGet (j : JVal) (key : String) : Option JVal :=
  match j with
  | .obj fields => lookupField fields key
  | _ => none

/-- Python truthiness of a decoded JSON value (`if value:`):
None, False, 0, "", [] and {} are falsy. -/
def jTruthy (j : JVal) : Bool :=
  match j with
  | .null => false
  | .bool b => b
  | .num n => n != 0
  | .str s => !(s == "")
  | .arr items => !items.isEmpty
  | .obj fields => !fields.isEmpty

mutual

/-- Python `str()` of a JSON-decoded value, used when the bridge formats a
non-string into an f-string.  Faithful for None/bool/int/str; lists and
dicts use the repr rendering (modulo exotic string-escape corner cases,
which no claim exercises). -/
def pyFormat : JVal → String
  | .str s => s
  | .null => "None"
  | .bool true => "True"
  | .bool false => "False"
  | .num n => toString n
  | .arr items => "[" ++ joinSep ", " (pyReprList items) ++ "]"
  | .obj fields => "\x7b" ++ joinSep ", " (pyReprFields fields) ++ "\x7d"

/-- Python `repr()` of a JSON-decoded value: like `str()` except that
strings are quoted. -/
def pyRepr : JVal → String
  | .str s => "\x27" ++ s ++ "\x27"
  | .null => "None"
  | .bool true => "True"
  | .bool false => "False"
  | .num n => toString n
  | .arr items => "[" ++ joinSep ", " (pyReprList items) ++ "]"
  | .obj fields => "\x7b" ++ joinSep ", " (pyReprFields fields) ++ "\x7d"

def pyReprList : List JVal → List String
  | [] => []
  | j :: rest => pyRepr j :: pyReprList rest

def pyReprFields : List (String × JVal) → List String
  | [] => []
  | (k, v) :: rest => ("\x27" ++ k ++ "\x27: " ++ pyRepr v) :: pyReprFields rest

end

/-! ### Request counter (bridge.py, class RequestCounter)

The lock in `RequestCounter.next` makes each increment-and-read atomic, so
any interleaving of calls from the SSE loop thread and the HTTP server
threads is a sequence of atomic `next` operations on the shared value;
`counterRun` returns the ids handed out by such a sequence of calls. -/

/-- `RequestCounter.next`: increment, then return the new value, together
with the new counter state. -/
def counterNext (v : Nat) : Nat × Nat := (v + 1, v + 1)

/-- The ids returned by `k` successive calls of `next` starting from
counter state `v` (the counter is initialised at zero in `main`). -/
def counterRun : Nat → Nat → List Nat
  | 0, _ => []
  | k + 1, v => (counterNext v).1 :: counterRun k (counterNext v).2

/-! ### SSE stream reading (bridge.py, parse_sse_event and listen_to_sse_stream) -/

/-- Python `line.rstrip("\n\r")`. -/
def rstripCRLF (s : String) : String :=
  ⟨(s.data.reverse.dropWhile (fun c => c == '\n' || c == '\r')).reverse⟩

/-- Python `s.strip()`: drop whitespace from both ends. -/
def pyStrip (s : String) : String :=
  ⟨((s.data.dropWhile Char.isWhitespace).reverse.dropWhile Char.isWhitespace).reverse⟩

/-- Python `line[n:]`: drop the first `n` code points. -/
def dropChars (n : Nat) (s : String) : String := ⟨s.data.drop n⟩

/-- `parse_sse_event`: scan the buffered lines for the last `event:` and
`data:` lines, and decode the data payload (`json.loads` abstracted as
`jp`, returning `none` on a decode error) when the event type is
`"receive"` and the data is truthy. -/
def parseSseEvent (jp : String → Option JVal) (lines : List String) : Option JVal :=
  let acc := lines.foldl
    (fun (p : Option String × Option String) line =>
      if startsWithStr line "event:" then (some (pyStrip (dropChars 6 line)), p.2)
      else if startsWithStr line "data:" then (p.1, some (pyStrip (dropChars 5 line)))
      else p)
    (none, none)
  match acc with
  | (some et, some d) => if et = "receive" && !(d == "") then jp d else none
  | _ => none

/-- The frame-reassembly loop of `listen_to_sse_stream`, run on a list of
raw lines with the current line-group buffer.  Returns the decoded events
that are handed to `process_signal_event` (a parsed event is handed over
only when it is truthy, `if event_data:`).  An empty line list models the
end of the stream, where the code raises a fatal stream-closed error and
hands over nothing further. -/
def sseLoop (jp : String → Option JVal) : List String → List String → List JVal
  | [], _ => []
  | line :: rest, buffer =>
      let l := rstripCRLF line
      if l = "" then
        match buffer with
        | [] => sseLoop jp rest []
        | _ =>
          match parseSseEvent jp buffer with
          | some e => if jTruthy e then e :: sseLoop jp rest [] else sseLoop jp rest []
          | none => sseLoop jp rest []
      else sseLoop jp rest (buffer ++ [l])

/-! ### Effects and external behaviours (bridge.py network calls) -/

/-- The parameter object of a signal-cli `send` JSON-RPC call, as built by
`send_signal_message` (textStyle only when the style list is truthy) and
`send_signal_message_with_attachment`. -/
structure RpcParams where
  recipient : List String
  message : JVal
  textStyle : Option (List String)
  attachment : Option (List String)

/-- One observable side effect of processing: a transcription-API call, an
agent-API call, or a signal-cli send RPC. -/
inductive Effect where
  | transcribeCall (path contentType : String)
  | agentCall (message sender : JVal)
  | rpcCall (params : RpcParams) (id : Nat)

def isRpcCall : Effect → Bool
  | .rpcCall _ _ => true
  | _ => false

def isTranscribeCall : Effect → Bool
  | .transcribeCall _ _ => true
  | _ => false

def isAgentCall : Effect → Bool
  | .agentCall _ _ => true
  | _ => false

/-- What the agent HTTP endpoint does on one request: respond with a status
and a body, or raise a transport error. -/
inductive AgentHttp where
  | response (status : Nat) (body : String)
  | raises

/-- `send_agent_request`: POST to the agent, raise (here: `Except.error`)
on a non-200 status, an undecodable body, or a body without a string
`response` field; return the response text otherwise. -/
def sendAgentRequest (jp : String → Option JVal) (agent : JVal → JVal → AgentHttp)
    (message sender : JVal) : Except Unit String :=
  match agent message sender with
  | .raises => .error ()
  | .response status body =>
      if status ≠ 200 then .error ()
      else
        match jp body with
        | none => .error ()
        | some j =>
            match dictGet j "response" with
            | some (.str s) => .ok s
            | _ => .error ()

/-! ### Inbound message processing (bridge.py, process_signal_event) -/

/-- `source_number not in allowed_numbers`: only a string can be a member
of the configured list of allowed number strings. -/
def memAllowed (j : JVal) (allowed : List String) : Bool :=
  match j with
  | .str s => allowed.contains s
  | _ => false

/-- The directory where signal-cli materialises attachments, as hard-coded
in `process_signal_event`. -/
def attachmentsDir : String := "/root/.local/share/signal-cli/attachments/"

/-- `[stt]` configuration (apiKey and model validated in `main`). -/
structure SttConfig where
  apiKey : String
  model : String

/-- One iteration of the attachment loop in `process_signal_event`,
threading the current message text (a JSON value: initially the envelope's
`message` field, a string after a voice note is appended) and the effect
trace.  `transcribe` abstracts `transcribe_audio` (ffmpeg plus the
transcription API); an `Except.error` result models the caught
transcoding/transcription exceptions, after which the attachment is
skipped. -/
def processAttachment (transcribe : String → String → Except Unit String)
    (stt? : Option SttConfig) (acc : JVal × List Effect) (att : JVal) : JVal × List Effect :=
  match att with
  | .obj _ =>
      let ct? : Option String :=
        match dictGet att "contentType" with
        | none => some ""
        | some (.str s) => some s
        | some _ => none
      match ct? with
      | none => acc
      | some ct =>
          if !(startsWithStr ct "audio/") then acc
          else
            match dictGet att "id" with
            | some (.str attId) =>
                match stt? with
                | none => acc
                | some _ =>
                    let path := attachmentsDir ++ attId
                    let eff := Effect.transcribeCall path ct
                    match transcribe path ct with
                    | .error _ => (acc.1, acc.2 ++ [eff])
                    | .ok transcription =>
                        let voice := "[Voice note]: " ++ transcription
                        let newMsg : JVal :=
                          if jTruthy acc.1 then .str (pyFormat acc.1 ++ "\n" ++ voice)
                          else .str voice
                        (newMsg, acc.2 ++ [eff])
            | _ => acc
  | _ => acc

/-- `process_signal_event`, returning the trace of side effects it
performs.  All exceptions of the agent call are caught and only logged —
the code comment says the bridge does not reply directly on Signal; the
agent replies through the `/send` endpoint — so both the success and the
failure branch of the agent call leave only the `agentCall` effect. -/
def processSignalEvent (jp : String → Option JVal) (agent : JVal → JVal → AgentHttp)
    (transcribe : String → String → Except Unit String)
    (eventData : JVal) (allowedNumbers : List String) (stt? : Option SttConfig) : List Effect :=
  let envelope := (dictGet eventData "envelope").getD (.obj [])
  let sourceNumber := (dictGet envelope "sourceNumber").getD .null
  let dataMessage := (dictGet envelope "dataMessage").getD .null
  if !(jTruthy dataMessage) then []
  else if !(memAllowed sourceNumber allowedNumbers) then []
  else
    let message0 := (dictGet dataMessage "message").getD .null
    let attachments := (dictGet dataMessage "attachments").getD (.arr [])
    let processed :=
      match attachments with
      | .arr items => items.foldl (processAttachment transcribe stt?) (message0, [])
      | _ => (message0, [])
    if !(jTruthy processed.1) then processed.2
    else
      match sendAgentRequest jp agent processed.1 sourceNumber with
      | .ok _ => processed.2 ++ [.agentCall processed.1 sourceNumber]
      | .error _ => processed.2 ++ [.agentCall processed.1 sourceNumber]

/-! ### The outbound gateway (bridge.py, make_send_handler / SendHandler.do_POST) -/

/-- Result of one signal-cli send RPC as observed by the caller:
delivered (`ok`), reported failure — non-200 status or an `error` member,
after which the send function returns False (`failed`) — or a raised
OSError/RuntimeError/JSONDecodeError (`raised`). -/
inductive RpcResult where
  | ok
  | failed
  | raised

/-- The HTTP outcome of one POST request: the response status (`none` when
an uncaught exception prevents any response), the trace of send RPCs
performed, and the new request-counter state. -/
structure PostOut where
  status : Option Nat
  effects : List Effect
  counter : Nat

/-- `SendHandler.do_POST`.  `body?` is the `json.loads` result of the raw
body (`none` for a JSON decode error); `b64Valid` abstracts
`base64.b64decode(..., validate=True)` succeeding; `rpc` abstracts what
signal-cli does with a send RPC; `tempPath` is the name the temporary
attachment file would get.  A JSON `null` attachment is indistinguishable
from an absent one for `dict.get`, hence the normalisation. -/
def doPost (allowedNumbers : List String) (b64Valid : String → Bool)
    (parse : String → List Node) (rpc : RpcParams → Nat → RpcResult)
    (tempPath : String) (counter : Nat) (path : String) (body? : Option JVal) : PostOut :=
  if path ≠ "/send" then { status := some 404, effects := [], counter := counter }
  else
    match body? with
    | none => { status := some 400, effects := [], counter := counter }
    | some body =>
        let messageText := (dictGet body "message").getD (.str "")
        match dictGet body "recipient" with
        | some (.str r) =>
            if r = "" then { status := some 400, effects := [], counter := counter }
            else if !(allowedNumbers.contains r) then
              { status := some 403, effects := [], counter := counter }
            else
              let attachment? :=
                match dictGet body "attachment" with
                | some .null => none
                | x => x
              let attachmentFilename := (dictGet body "attachmentFilename").getD (.str "attachment.bin")
              match attachment? with
              | some (.str a) =>
                  match attachmentFilename with
                  | .str _ =>
                      if !(b64Valid a) then { status := some 400, effects := [], counter := counter }
                      else
                        let id := (counterNext counter).1
                        let params : RpcParams :=
                          { recipient := [r], message := messageText,
                            textStyle := none, attachment := some [tempPath] }
                        { status := some (match rpc params id with
                            | .raised => 500
                            | .failed => 502
                            | .ok => 200),
                          effects := [.rpcCall params id],
                          counter := (counterNext counter).2 }
                  | _ => { status := some 400, effects := [], counter := counter }
              | some _ => { status := some 400, effects := [], counter := counter }
              | none =>
                  match attachmentFilename with
                  | .str _ =>
                      match messageText with
                      | .str m =>
                          let conv := convertAst (parse m)
                          let styles := conv.2.map spanEncode
                          let id := (counterNext counter).1
                          let params : RpcParams :=
                            { recipient := [r], message := .str conv.1,
                              textStyle := if styles.isEmpty then none else some styles,
                              attachment := none }
                          { status := some (match rpc params id with
                              | .raised => 500
                              | .failed => 502
                              | .ok => 200),
                            effects := [.rpcCall params id],
                            counter := (counterNext counter).2 }
                      | _ =>
                          -- a truthy non-string message reaches
                          -- convert_markdown, which raises an uncaught
                          -- TypeError inside mistune: no response is sent.
                          { status := none, effects := [], counter := counter }
                  | _ => { status := some 400, effects := [], counter := counter }
        | _ => { status := some 400, effects := [], counter := counter }

/-- Accessor used in theorem statements: the envelope of an event
(`event_data.get("envelope", {})`). -/
def envelopeOf (e : JVal) : JVal := (dictGet e "envelope").getD (.obj [])

/-- Accessor used in theorem statements: `envelope.get("sourceNumber")`. -/
def sourceNumberOf (e : JVal) : JVal := (dictGet (envelopeOf e) "sourceNumber").getD .null

/-- Accessor used in theorem statements: `envelope.get("dataMessage")`. -/
def dataMessageOf (e : JVal) : JVal := (dictGet (envelopeOf e) "dataMessage").getD .null

/-- The UTF-16 length of the trailing-newline-trimmed text: the bound that
claim C7 imposes on every emitted span. -/
def stripLen (s : String) : Nat := utf16Length (rstripNewlines s)

/-- The span invariant of the converter state: every recorded span has
positive length and ends no later than the trimmed text does. -/
def Inv (st : ConvSt) : Prop :=
  ∀ sp ∈ st.styles, 0 < sp.length ∧ sp.start + sp.length ≤ stripLen st.text

/-! ### Fixtures and expected-value functions used in theorem statements -/

/-- A plain inline node: a text run or a soft line break.  These are the
only inline nodes a markdown-free plain text parses to. -/
def plainInline : Node → Bool
  | .text _ => true
  | .softbreak => true
  | _ => false

/-- A plain block: a paragraph of plain inline content that renders to a
non-empty fragment not ending in a newline, or a blank-line marker. -/
def plainBlock : Node → Bool
  | .paragraph cs => cs.all plainInline && !(fragList cs == "") && noNL (fragList cs).data
  | .blankLine => true
  | _ => false

/-- The AST of a plain text without markdown syntax: paragraphs of plain
runs separated by blank lines. -/
def plainDoc (ns : List Node) : Bool := ns.all plainBlock

/-- The rendered fragments of the paragraphs of a document. -/
def paraTexts (ns : List Node) : List String :=
  ns.filterMap fun n =>
    match n with
    | .paragraph cs => some (fragList cs)
    | _ => none

/-- Paragraph fragments each followed by the blank-line separator, as the
walker accumulates them before the final trim. -/
def docBody : List String → String
  | [] => ""
  | f :: fs => f ++ "\n\n" ++ docBody fs

/-- The text a plain document denotes: its paragraphs joined by blank lines. -/
def renderText (ns : List Node) : String := joinSep "\n\n" (paraTexts ns)

/-- A signal-cli receive event whose envelope has the given sender and a
dataMessage with the given text, as decoded from the SSE `data:` payload. -/
def mkTextEvent (src msg : String) : JVal :=
  .obj [("envelope", .obj [("sourceNumber", .str src),
    ("dataMessage", .obj [("message", .str msg)])])]

/-- One attachment entry of a dataMessage. -/
def attachmentJson (attId ct : String) : JVal :=
  .obj [("id", .str attId), ("contentType", .str ct)]

/-- A receive event with optional message text and a list of attachments
given as (id, contentType) pairs. -/
def mkAudioEvent (src : String) (msg? : Option String) (atts : List (String × String)) : JVal :=
  .obj [("envelope", .obj [("sourceNumber", .str src),
    ("dataMessage", .obj ((match msg? with
        | some m => [("message", JVal.str m)]
        | none => []) ++
      [("attachments", .arr (atts.map fun p => attachmentJson p.1 p.2))]))])]

/-- The voice-note lines appended after the initial text: one
`"\n[Voice note]: <t>"` per transcript. -/
def voiceTail : List String → String
  | [] => ""
  | t :: rest => "\n" ++ ("[Voice note]: " ++ t) ++ voiceTail rest

/-- A two-point stand-in for the mistune parser, matching what it produces
on the inputs of the round-trip witness: bold markdown parses to a strong
run, its plain-text output parses to a plain paragraph. -/
def c8parse : String → List Node := fun s =>
  if s = "**hello**" then [.paragraph [.strong [.text "hello"]]]
  else if s = "hello" then [.paragraph [.text "hello"]]
  else []

/-- The message text assembled from the envelope text and the transcripts
of the audio attachments, in order. -/
def joinedMessage (msg? : Option String) (ts : List String) : String :=
  match msg?, ts with
  | some m, ts => m ++ voiceTail ts
  | none, [] => ""
  | none, t :: rest => "[Voice note]: " ++ t ++ voiceTail rest

/-! ### Theorems.  First: arithmetic of UTF-16 lengths and trailing trims. -/

theorem u16_append (a b : List Char) : u16 (a ++ b) = u16 a + u16 b := by
  simp [u16]

theorem utf16Length_append (s t : String) : utf16Length (s ++ t) = utf16Length s + utf16Length t := by
  simp [utf16Length, String.data_append, u16_append]

theorem u16_reverse (l : List Char) : u16 l.reverse = u16 l := by
  simp [u16, List.map_reverse, List.sum_reverse]

theorem u16_dropTrailNL_le (l : List Char) : u16 (dropTrailNL l) ≤ u16 l := by
  have hsplit := List.takeWhile_append_dropWhile (fun c => c == '\n') l.reverse
  have h2 : u16 l.reverse = u16 (l.reverse.takeWhile (fun c => c == '\n'))
      + u16 (l.reverse.dropWhile (fun c => c == '\n')) := by
    conv_lhs => rw [← hsplit]
    exact u16_append _ _
  calc u16 (dropTrailNL l) = u16 (l.reverse.dropWhile (fun c => c == '\n')) := u16_reverse _
    _ ≤ u16 l.reverse := by omega
    _ = u16 l := u16_reverse l

theorem u16_dropTrailNL_append_le (a b : List Char) :
    u16 (dropTrailNL a) ≤ u16 (dropTrailNL (a ++ b)) := by
  have h : (b.reverse ++ a.reverse).dropWhile (fun c => c == '\n') =
      if ((b.reverse).dropWhile (fun c => c == '\n')).isEmpty then
        (a.reverse).dropWhile (fun c => c == '\n')
      else (b.reverse).dropWhile (fun c => c == '\n') ++ a.reverse :=
    List.dropWhile_append
  by_cases hb : ((b.reverse).dropWhile (fun c => c == '\n')).isEmpty = true
  · have heq : dropTrailNL (a ++ b) = dropTrailNL a := by
      simp only [dropTrailNL, List.reverse_append, h, hb, if_true]
    rw [heq]
  · have heq : dropTrailNL (a ++ b) = a ++ ((b.reverse).dropWhile (fun c => c == '\n')).reverse := by
      simp only [dropTrailNL, List.reverse_append, h, hb, if_false]
      simp
    rw [heq, u16_append]
    have := u16_dropTrailNL_le a
    omega

theorem stripLen_append_le (s t : String) : stripLen s ≤ stripLen (s ++ t) := by
  simpa [stripLen, utf16Length, rstripNewlines, String.data_append]
    using u16_dropTrailNL_append_le s.data t.data

theorem dropTrailNL_of_noNL (l : List Char) (h : noNL l = true) : dropTrailNL l = l := by
  rcases hr : l.reverse with _ | ⟨c, cl⟩
  · have : l = [] := by simpa using congrArg List.reverse hr
    simp [this, dropTrailNL]
  · have hc : c ≠ '\n' := by
      have hlast : l.getLast? = some c := by
        rw [← List.head?_reverse, hr]
        rfl
      simp [noNL, hlast] at h
      simpa using h
    simp only [dropTrailNL, hr, List.dropWhile_cons]
    simp [hc, ← hr]

theorem rstripNewlines_of_noNL (s : String) (h : noNL s.data = true) : rstripNewlines s = s := by
  have := dropTrailNL_of_noNL s.data h
  simp [rstripNewlines, this]

theorem noNL_append (a b : List Char) (hb : b ≠ []) (h : noNL b = true) : noNL (a ++ b) = true := by
  have : (a ++ b).getLast? = b.getLast? := List.getLast?_append_of_ne_nil a hb
  simpa [noNL, this] using h

theorem u16_pos (l : List Char) (h : l ≠ []) : 0 < u16 l := by
  rcases l with _ | ⟨c, t⟩
  · exact absurd rfl h
  · have : 1 ≤ charW c := by simp [charW]; split <;> omega
    simp [u16, charW] at *
    omega

theorem string_ne_empty_of_data (s : String) (h : s.data ≠ []) : s ≠ "" := by
  intro he
  apply h
  rw [he]

/-! ### Invariant preservation through the converter's primitive operations -/

theorem applyStyle_text (sty : String) (start : Nat) (st : ConvSt) :
    (applyStyle sty start st).text = st.text := by
  simp only [applyStyle]
  split <;> rfl

theorem inv_appendText (s : String) (st : ConvSt) (h : Inv st) : Inv (appendText s st) := by
  intro sp hsp
  refine ⟨(h sp hsp).1, le_trans (h sp hsp).2 ?_⟩
  simpa [appendText] using stripLen_append_le st.text s

theorem inv_ensureBlank (st : ConvSt) (h : Inv st) : Inv (ensureBlank st) := by
  unfold ensureBlank
  split
  · exact h
  split
  · exact h
  split
  · exact inv_appendText _ _ h
  · exact inv_appendText _ _ h

theorem inv_ensureTrailingBlank (st : ConvSt) (h : Inv st) : Inv (ensureTrailingBlank st) := by
  unfold ensureTrailingBlank
  split
  · exact h
  split
  · exact inv_appendText _ _ h
  · exact inv_appendText _ _ h

theorem inv_applyStyle (sty : String) (start : Nat) (st : ConvSt) (h : Inv st)
    (hsafe : noNL st.text.data = true ∨ utf16Length st.text ≤ start) :
    Inv (applyStyle sty start st) := by
  unfold applyStyle
  split
  · next hlen =>
      intro sp hsp
      simp only [List.mem_append, List.mem_singleton] at hsp
      rcases hsp with hsp | hsp
      · exact h sp hsp
      · subst hsp
        rcases hsafe with hs | hs
        · have : stripLen st.text = utf16Length st.text := by
            simp [stripLen, rstripNewlines_of_noNL st.text hs]
          simp only []
          constructor
          · exact hlen
          · simp only [this]
            omega
        · omega
  · exact h

/-! ### Inline nodes append their context-free fragment -/

mutual

theorem walkNode_text_inline (n : Node) (st : ConvSt) (h : inlineShape n = true) :
    (walkNode n st).text = st.text ++ frag n := by
  cases n with
  | text raw => simp [walkNode, frag, appendText]
  | softbreak => simp [walkNode, frag, appendText]
  | linebreak => simp [walkNode, frag, appendText]
  | codespan raw => simp [walkNode, frag, appendText, applyStyle_text]
  | image src => simp [walkNode, frag, appendText]
  | link url cs =>
      simp only [walkNode, frag]
      split <;> simp [appendText]
  | strong cs =>
      have hcs : inlineShapeList cs = true := by simpa [inlineShape] using h
      simp [walkNode, frag, applyStyle_text, walkNodes_text_inline cs st hcs]
  | emphasis cs =>
      have hcs : inlineShapeList cs = true := by simpa [inlineShape] using h
      simp [walkNode, frag, applyStyle_text, walkNodes_text_inline cs st hcs]
  | strikethrough cs =>
      have hcs : inlineShapeList cs = true := by simpa [inlineShape] using h
      simp [walkNode, frag, applyStyle_text, walkNodes_text_inline cs st hcs]
  | paragraph cs => exact absurd h (by simp [inlineShape])
  | heading cs => exact absurd h (by simp [inlineShape])
  | blockCode raw => exact absurd h (by simp [inlineShape])
  | list ordered first? cs => exact absurd h (by simp [inlineShape])
  | listItem cs => exact absurd h (by simp [inlineShape])
  | blockQuote cs => exact absurd h (by simp [inlineShape])
  | thematicBreak => exact absurd h (by simp [inlineShape])
  | blankLine => exact absurd h (by simp [inlineShape])
  | unknown cs => exact absurd h (by simp [inlineShape])
termination_by 2 * sizeOf n
decreasing_by
  all_goals simp_wf
  all_goals try subst_vars
  all_goals (first | omega | (simp_arith; try omega))

theorem walkNodes_text_inline (ns : List Node) (st : ConvSt) (h : inlineShapeList ns = true) :
    (walkNodes ns st).text = st.text ++ fragList ns := by
  cases ns with
  | nil => simp [walkNodes, fragList]
  | cons n rest =>
      have h1 : inlineShape n = true ∧ inlineShapeList rest = true := by
        simpa [inlineShapeList, Bool.and_eq_true] using h
      have hstep : walkNodes (n :: rest) st = walkNodes rest (walkNode n st) := by
        simp [walkNodes]
      rw [hstep, walkNodes_text_inline rest _ h1.2, walkNode_text_inline n st h1.1]
      simp [fragList, String.append_assoc]
termination_by 2 * sizeOf ns
decreasing_by
  all_goals simp_wf
  all_goals try subst_vars
  all_goals (first | omega | (simp_arith; try omega))

end

/-! ### The span invariant is preserved by every walker step -/

theorem noNL_dropTrailNL (l : List Char) : noNL (dropTrailNL l) = true := by
  unfold dropTrailNL noNL
  rcases hd : l.reverse.dropWhile (fun c => c == '\n') with _ | ⟨c, t⟩
  · simp
  · have hp : (c == '\n') = false := by
      have := List.head?_dropWhile_not (fun c => c == '\n') l.reverse
      rw [hd] at this
      simpa using this
    simp only [List.getLast?_reverse, List.head?_cons]
    simpa using hp

theorem goodNode_children (n : Node) (h : goodNode n = true) : goodList (getChildren n) = true := by
  cases n <;> simp_all [goodNode, getChildren, goodList, Bool.and_eq_true]

/-- Safety of `applyStyle` after walking inline children: the appended
fragment is either empty (zero-length span, nothing recorded) or does not
end in a newline (the recorded span survives the final trim). -/
theorem applyStyle_safe_of_frag (base : ConvSt) (F : String)
    (hnl : noNL F.data = true) (st2 : ConvSt) (htext : st2.text = base.text ++ F) :
    noNL st2.text.data = true ∨ utf16Length st2.text ≤ utf16Length base.text := by
  by_cases hf : F.data = []
  · right
    rw [htext, utf16Length_append]
    have : utf16Length F = 0 := by simp [utf16Length, hf, u16]
    omega
  · left
    rw [htext, String.data_append]
    exact noNL_append base.text.data F.data hf hnl

mutual

theorem walkNode_inv (n : Node) (st : ConvSt) (hg : goodNode n = true) (hI : Inv st) :
    Inv (walkNode n st) := by
  cases n with
  | paragraph cs =>
      have hcs : goodList cs = true := by simpa [goodNode] using hg
      have heq : walkNode (.paragraph cs) st = appendText "\n\n" (walkNodes cs (ensureBlank st)) := by
        simp [walkNode]
      rw [heq]
      exact inv_appendText _ _ (walkNodes_inv cs _ hcs (inv_ensureBlank st hI))
  | heading cs =>
      have hcs : goodList cs = true ∧ inlineShapeList cs = true ∧ noNL (fragList cs).data = true := by
        simpa [goodNode, Bool.and_eq_true, and_assoc] using hg
      have heq : walkNode (.heading cs) st =
          appendText "\n\n" (applyStyle "BOLD" (utf16Length (ensureBlank st).text)
            (walkNodes cs (ensureBlank st))) := by
        simp [walkNode]
      rw [heq]
      have hI2 := walkNodes_inv cs _ hcs.1 (inv_ensureBlank st hI)
      have htext := walkNodes_text_inline cs (ensureBlank st) hcs.2.1
      exact inv_appendText _ _ (inv_applyStyle _ _ _ hI2
        (applyStyle_safe_of_frag (ensureBlank st) (fragList cs) hcs.2.2 _ htext))
  | strong cs =>
      have hcs : goodList cs = true ∧ inlineShapeList cs = true ∧ noNL (fragList cs).data = true := by
        simpa [goodNode, Bool.and_eq_true, and_assoc] using hg
      have heq : walkNode (.strong cs) st =
          applyStyle "BOLD" (utf16Length st.text) (walkNodes cs st) := by
        simp [walkNode]
      rw [heq]
      exact inv_applyStyle _ _ _ (walkNodes_inv cs st hcs.1 hI)
        (applyStyle_safe_of_frag st (fragList cs) hcs.2.2 _ (walkNodes_text_inline cs st hcs.2.1))
  | emphasis cs =>
      have hcs : goodList cs = true ∧ inlineShapeList cs = true ∧ noNL (fragList cs).data = true := by
        simpa [goodNode, Bool.and_eq_true, and_assoc] using hg
      have heq : walkNode (.emphasis cs) st =
          applyStyle "ITALIC" (utf16Length st.text) (walkNodes cs st) := by
        simp [walkNode]
      rw [heq]
      exact inv_applyStyle _ _ _ (walkNodes_inv cs st hcs.1 hI)
        (applyStyle_safe_of_frag st (fragList cs) hcs.2.2 _ (walkNodes_text_inline cs st hcs.2.1))
  | strikethrough cs =>
      have hcs : goodList cs = true ∧ inlineShapeList cs = true ∧ noNL (fragList cs).data = true := by
        simpa [goodNode, Bool.and_eq_true, and_assoc] using hg
      have heq : walkNode (.strikethrough cs) st =
          applyStyle "STRIKETHROUGH" (utf16Length st.text) (walkNodes cs st) := by
        simp [walkNode]
      rw [heq]
      exact inv_applyStyle _ _ _ (walkNodes_inv cs st hcs.1 hI)
        (applyStyle_safe_of_frag st (fragList cs) hcs.2.2 _ (walkNodes_text_inline cs st hcs.2.1))
  | codespan raw =>
      have hraw : noNL raw.data = true := by simpa [goodNode] using hg
      have heq : walkNode (.codespan raw) st =
          applyStyle "MONOSPACE" (utf16Length st.text) (appendText raw st) := by
        simp [walkNode]
      rw [heq]
      exact inv_applyStyle _ _ _ (inv_appendText raw st hI)
        (applyStyle_safe_of_frag st raw hraw _ rfl)
  | blockCode raw =>
      have heq : walkNode (.blockCode raw) st =
          appendText "\n\n" (applyStyle "MONOSPACE" (utf16Length (ensureBlank st).text)
            (appendText (rstripNewlines raw) (ensureBlank st))) := by
        simp [walkNode]
      rw [heq]
      have hnl : noNL (rstripNewlines raw).data = true := noNL_dropTrailNL raw.data
      exact inv_appendText _ _ (inv_applyStyle _ _ _
        (inv_appendText _ _ (inv_ensureBlank st hI))
        (applyStyle_safe_of_frag (ensureBlank st) (rstripNewlines raw) hnl _ rfl))
  | text raw =>
      have heq : walkNode (.text raw) st = appendText raw st := by simp [walkNode]
      rw [heq]; exact inv_appendText raw st hI
  | softbreak =>
      have heq : walkNode .softbreak st = appendText "\n" st := by simp [walkNode]
      rw [heq]; exact inv_appendText _ st hI
  | linebreak =>
      have heq : walkNode .linebreak st = appendText "\n" st := by simp [walkNode]
      rw [heq]; exact inv_appendText _ st hI
  | link url cs =>
      have heq : walkNode (.link url cs) st =
          (if (walkNodes cs { text := "", styles := [] }).text = "" ∨
              (walkNodes cs { text := "", styles := [] }).text = url then appendText url st
           else appendText ((walkNodes cs { text := "", styles := [] }).text ++ " (" ++ url ++ ")") st) := by
        simp [walkNode]
      rw [heq]
      split
      · exact inv_appendText _ st hI
      · exact inv_appendText _ st hI
  | image src =>
      have heq : walkNode (.image src) st = appendText src st := by simp [walkNode]
      rw [heq]; exact inv_appendText src st hI
  | list ordered first? cs =>
      have hcs : goodList cs = true := by simpa [goodNode] using hg
      have heq : walkNode (.list ordered first? cs) st =
          appendText "\n" (walkListItems ordered (listStart first?) 0 cs (ensureBlank st)) := by
        simp [walkNode]
      rw [heq]
      exact inv_appendText _ _ (walkListItems_inv ordered _ 0 cs _ hcs (inv_ensureBlank st hI))
  | listItem cs =>
      have hcs : goodList cs = true := by simpa [goodNode] using hg
      have heq : walkNode (.listItem cs) st = walkNodes cs st := by simp [walkNode]
      rw [heq]
      exact walkNodes_inv cs st hcs hI
  | blockQuote cs =>
      have hcs : goodList cs = true := by simpa [goodNode] using hg
      have heq : walkNode (.blockQuote cs) st =
          ensureTrailingBlank (walkNodes cs (ensureBlank st)) := by
        simp [walkNode]
      rw [heq]
      exact inv_ensureTrailingBlank _ (walkNodes_inv cs _ hcs (inv_ensureBlank st hI))
  | thematicBreak =>
      have heq : walkNode .thematicBreak st =
          appendText "---\n\n"
            (if st.text = "" then st
             else if endsWithStr st.text "\n" then st
             else appendText "\n" st) := by
        simp [walkNode]
      rw [heq]
      refine inv_appendText _ _ ?_
      split
      · exact hI
      split
      · exact hI
      · exact inv_appendText _ st hI
  | blankLine =>
      have heq : walkNode .blankLine st = st := by simp [walkNode]
      rw [heq]; exact hI
  | unknown cs =>
      have hcs : goodList cs = true := by simpa [goodNode] using hg
      have heq : walkNode (.unknown cs) st = walkNodes cs st := by simp [walkNode]
      rw [heq]
      exact walkNodes_inv cs st hcs hI
termination_by 2 * sizeOf n
decreasing_by
  all_goals simp_wf
  all_goals try subst_vars
  all_goals (first | omega | (simp_arith; try omega))

theorem walkNodes_inv (ns : List Node) (st : ConvSt) (hg : goodList ns = true) (hI : Inv st) :
    Inv (walkNodes ns st) := by
  cases ns with
  | nil =>
      have heq : walkNodes [] st = st := by simp [walkNodes]
      rw [heq]; exact hI
  | cons n rest =>
      have h1 : goodNode n = true ∧ goodList rest = true := by
        simpa [goodList, Bool.and_eq_true] using hg
      have heq : walkNodes (n :: rest) st = walkNodes rest (walkNode n st) := by
        simp [walkNodes]
      rw [heq]
      exact walkNodes_inv rest _ h1.2 (walkNode_inv n st h1.1 hI)
termination_by 2 * sizeOf ns
decreasing_by
  all_goals simp_wf
  all_goals try subst_vars
  all_goals (first | omega | (simp_arith; try omega))

theorem walkListItems_inv (ordered : Bool) (firstIdx idx : Nat) (items : List Node) (st : ConvSt)
    (hg : goodList items = true) (hI : Inv st) :
    Inv (walkListItems ordered firstIdx idx items st) := by
  cases items with
  | nil =>
      have heq : walkListItems ordered firstIdx idx [] st = st := by simp [walkListItems]
      rw [heq]; exact hI
  | cons item rest =>
      have h1 : goodNode item = true ∧ goodList rest = true := by
        simpa [goodList, Bool.and_eq_true] using hg
      have heq : walkListItems ordered firstIdx idx (item :: rest) st =
          walkListItems ordered firstIdx (idx + 1) rest
            (walkListItem item (appendText
              (if ordered then toString (firstIdx + idx) ++ ". " else "- ") st)) := by
        simp [walkListItems]
      rw [heq]
      exact walkListItems_inv ordered firstIdx (idx + 1) rest _ h1.2
        (walkListItem_inv item _ h1.1 (inv_appendText _ st hI))
termination_by 2 * sizeOf items
decreasing_by
  all_goals simp_wf
  all_goals try subst_vars
  all_goals (first | omega | (simp_arith; try omega))

theorem walkListItem_inv (item : Node) (st : ConvSt) (hg : goodNode item = true) (hI : Inv st) :
    Inv (walkListItem item st) := by
  have heq : walkListItem item st = appendText "\n" (walkItemChildren (getChildren item) st) := by
    simp [walkListItem]
  rw [heq]
  exact inv_appendText _ _ (walkItemChildren_inv (getChildren item) st (goodNode_children item hg) hI)
termination_by 2 * sizeOf item + 1
decreasing_by
  all_goals simp_wf
  all_goals try subst_vars
  all_goals (have hle := sizeOf_getChildren_le item; omega)

theorem walkItemChildren_inv (cs : List Node) (st : ConvSt) (hg : goodList cs = true) (hI : Inv st) :
    Inv (walkItemChildren cs st) := by
  cases cs with
  | nil =>
      have heq : walkItemChildren [] st = st := by simp [walkItemChildren]
      rw [heq]; exact hI
  | cons c rest =>
      have h1 : goodNode c = true ∧ goodList rest = true := by
        simpa [goodList, Bool.and_eq_true] using hg
      have heq : walkItemChildren (c :: rest) st = walkItemChildren rest (walkItemChild c st) := by
        simp [walkItemChildren]
      rw [heq]
      exact walkItemChildren_inv rest _ h1.2 (walkItemChild_inv c st h1.1 hI)
termination_by 2 * sizeOf cs
decreasing_by
  all_goals simp_wf
  all_goals try subst_vars
  all_goals (first | omega | (simp_arith; try omega))

theorem walkItemChild_inv (c : Node) (st : ConvSt) (hg : goodNode c = true) (hI : Inv st) :
    Inv (walkItemChild c st) := by
  cases c with
  | paragraph ps =>
      have hps : goodList ps = true := by simpa [goodNode] using hg
      have heq : walkItemChild (.paragraph ps) st = walkNodes ps st := by simp [walkItemChild]
      rw [heq]
      exact walkNodes_inv ps st hps hI
  | list ordered first? items =>
      have hits : goodList items = true := by simpa [goodNode] using hg
      have heq : walkItemChild (.list ordered first? items) st =
          walkNestedItems ordered (listStart first?) 0 items (appendText "\n" st) := by
        simp [walkItemChild]
      rw [heq]
      exact walkNestedItems_inv ordered _ 0 items _ hits (inv_appendText _ st hI)
  | heading ps =>
      have heq : walkItemChild (.heading ps) st = walkNode (.heading ps) st := by
        simp [walkItemChild]
      rw [heq]; exact walkNode_inv _ st hg hI
  | strong ps =>
      have heq : walkItemChild (.strong ps) st = walkNode (.strong ps) st := by
        simp [walkItemChild]
      rw [heq]; exact walkNode_inv _ st hg hI
  | emphasis ps =>
      have heq : walkItemChild (.emphasis ps) st = walkNode (.emphasis ps) st := by
        simp [walkItemChild]
      rw [heq]; exact walkNode_inv _ st hg hI
  | strikethrough ps =>
      have heq : walkItemChild (.strikethrough ps) st = walkNode (.strikethrough ps) st := by
        simp [walkItemChild]
      rw [heq]; exact walkNode_inv _ st hg hI
  | codespan raw =>
      have heq : walkItemChild (.codespan raw) st = walkNode (.codespan raw) st := by
        simp [walkItemChild]
      rw [heq]; exact walkNode_inv _ st hg hI
  | blockCode raw =>
      have heq : walkItemChild (.blockCode raw) st = walkNode (.blockCode raw) st := by
        simp [walkItemChild]
      rw [heq]; exact walkNode_inv _ st hg hI
  | text raw =>
      have heq : walkItemChild (.text raw) st = walkNode (.text raw) st := by
        simp [walkItemChild]
      rw [heq]; exact walkNode_inv _ st hg hI
  | softbreak =>
      have heq : walkItemChild .softbreak st = walkNode .softbreak st := by
        simp [walkItemChild]
      rw [heq]; exact walkNode_inv _ st hg hI
  | linebreak =>
      have heq : walkItemChild .linebreak st = walkNode .linebreak st := by
        simp [walkItemChild]
      rw [heq]; exact walkNode_inv _ st hg hI
  | link url ps =>
      have heq : walkItemChild (.link url ps) st = walkNode (.link url ps) st := by
        simp [walkItemChild]
      rw [heq]; exact walkNode_inv _ st hg hI
  | image src =>
      have heq : walkItemChild (.image src) st = walkNode (.image src) st := by
        simp [walkItemChild]
      rw [heq]; exact walkNode_inv _ st hg hI
  | listItem ps =>
      have heq : walkItemChild (.listItem ps) st = walkNode (.listItem ps) st := by
        simp [walkItemChild]
      rw [heq]; exact walkNode_inv _ st hg hI
  | blockQuote ps =>
      have heq : walkItemChild (.blockQuote ps) st = walkNode (.blockQuote ps) st := by
        simp [walkItemChild]
      rw [heq]; exact walkNode_inv _ st hg hI
  | thematicBreak =>
      have heq : walkItemChild .thematicBreak st = walkNode .thematicBreak st := by
        simp [walkItemChild]
      rw [heq]; exact walkNode_inv _ st hg hI
  | blankLine =>
      have heq : walkItemChild .blankLine st = walkNode .blankLine st := by
        simp [walkItemChild]
      rw [heq]; exact walkNode_inv _ st hg hI
  | unknown ps =>
      have heq : walkItemChild (.unknown ps) st = walkNode (.unknown ps) st := by
        simp [walkItemChild]
      rw [heq]; exact walkNode_inv _ st hg hI
termination_by 2 * sizeOf c + 1
decreasing_by
  all_goals simp_wf
  all_goals try subst_vars
  all_goals (first | omega | (simp_arith; try omega))

theorem walkNestedItems_inv (ordered : Bool) (firstIdx idx : Nat) (items : List Node) (st : ConvSt)
    (hg : goodList items = true) (hI : Inv st) :
    Inv (walkNestedItems ordered firstIdx idx items st) := by
  cases items with
  | nil =>
      have heq : walkNestedItems ordered firstIdx idx [] st = st := by simp [walkNestedItems]
      rw [heq]; exact hI
  | cons item rest =>
      have h1 : goodNode item = true ∧ goodList rest = true := by
        simpa [goodList, Bool.and_eq_true] using hg
      have heq : walkNestedItems ordered firstIdx idx (item :: rest) st =
          walkNestedItems ordered firstIdx (idx + 1) rest
            (walkListItem item (appendText
              (if ordered then "  " ++ toString (firstIdx + idx) ++ ". " else "  - ") st)) := by
        simp [walkNestedItems]
      rw [heq]
      exact walkNestedItems_inv ordered firstIdx (idx + 1) rest _ h1.2
        (walkListItem_inv item _ h1.1 (inv_appendText _ st hI))
termination_by 2 * sizeOf items
decreasing_by
  all_goals simp_wf
  all_goals try subst_vars
  all_goals (first | omega | (simp_arith; try omega))

end

/-! ### Claim C7: span invariants of convert_markdown -/

/-- C7: for every well-formed markdown AST (`goodList`: styled runs,
headings and code spans do not end in a newline, as CommonMark inline
parsing guarantees for every tree mistune produces), every style span
emitted by `convert_markdown` has strictly positive length and satisfies
`start + length <= utf16_length(plain_text)`, where the plain text is the
returned text after trailing-newline trimming; zero-length spans are never
emitted. -/
theorem stavrobot_c7_span_invariant (ns : List Node) (h : goodList ns = true) :
    ∀ sp ∈ (convertAst ns).2, 0 < sp.length ∧
      sp.start + sp.length ≤ utf16Length (convertAst ns).1 := by
  have hInv : Inv (walkNodes ns { text := "", styles := [] }) := by
    apply walkNodes_inv ns _ h
    intro sp hsp
    simp at hsp
  intro sp hsp
  have hmem : sp ∈ (walkNodes ns { text := "", styles := [] }).styles := by
    simpa [convertAst] using hsp
  have := hInv sp hmem
  simpa [convertAst, stripLen] using this

/-- Witness for C7 at a concrete AST (the tree of
`"**bold** and *italic*"`). -/
theorem stavrobot_c7_witness :
    goodList [Node.paragraph [Node.strong [Node.text "bold"], Node.text " and ",
      Node.emphasis [Node.text "italic"]]] = true ∧
    ∀ sp ∈ (convertAst [Node.paragraph [Node.strong [Node.text "bold"], Node.text " and ",
      Node.emphasis [Node.text "italic"]]]).2, 0 < sp.length ∧
      sp.start + sp.length ≤ utf16Length (convertAst [Node.paragraph [Node.strong [Node.text "bold"],
        Node.text " and ", Node.emphasis [Node.text "italic"]]]).1 :=
  ⟨by decide, stavrobot_c7_span_invariant _ (by decide)⟩

/-! ### Claim C5: the request counter -/

theorem counterRun_eq (k v : Nat) : counterRun k v = (List.range k).map (fun i => v + i + 1) := by
  induction k generalizing v with
  | zero => simp [counterRun]
  | succ k ih =>
      rw [List.range_succ_eq_map]
      simp only [counterRun, counterNext, List.map_cons, List.map_map, Nat.add_zero]
      rw [ih]
      congr 1
      apply List.map_congr_left
      intro i _
      simp [Function.comp]
      omega

/-- C5: any sequence of calls of the request-id allocator (the lock in
`RequestCounter.next` makes every increment-and-read atomic, so any
interleaving of calls from the SSE loop and `/send` handlers is such a
sequence) returns pairwise distinct, strictly increasing ids, never
reusing an id for the process lifetime (the counter starts at zero in
`main`). -/
theorem stavrobot_c5_counter_ids (k : Nat) :
    (counterRun k 0).Pairwise (· < ·) ∧ (counterRun k 0).Nodup := by
  have h : (counterRun k 0).Pairwise (· < ·) := by
    rw [counterRun_eq]
    rw [List.pairwise_map]
    apply (List.pairwise_lt_range k).imp
    intro a b hab
    omega
  exact ⟨h, h.imp Nat.ne_of_lt⟩

/-! ### Claim C1: unauthorized senders are dropped with no side effects -/

/-- C1: an inbound event whose envelope has a `sourceNumber` outside the
allow-list (and whose dataMessage is present, i.e. truthy) produces no
agent call, no transcription call and no send: `process_signal_event`
performs no side effect beyond logging. -/
theorem stavrobot_c1_unauthorized_dropped (jp : String → Option JVal)
    (agent : JVal → JVal → AgentHttp) (transcribe : String → String → Except Unit String)
    (eventData : JVal) (allowedNumbers : List String) (stt? : Option SttConfig)
    (hdm : jTruthy (dataMessageOf eventData) = true)
    (hauth : memAllowed (sourceNumberOf eventData) allowedNumbers = false) :
    processSignalEvent jp agent transcribe eventData allowedNumbers stt? = [] := by
  simp only [dataMessageOf] at hdm
  simp only [sourceNumberOf] at hauth
  simp only [processSignalEvent, envelopeOf] at *
  rw [hdm, hauth]
  simp

/-- Witness for C1: a message from a number outside the allow-list. -/
theorem stavrobot_c1_witness :
    jTruthy (dataMessageOf (mkTextEvent "+15550001111" "hi")) = true ∧
    memAllowed (sourceNumberOf (mkTextEvent "+15550001111" "hi")) ["+15551234567"] = false ∧
    processSignalEvent (fun _ => none) (fun _ _ => .raises) (fun _ _ => .error ())
      (mkTextEvent "+15550001111" "hi") ["+15551234567"] none = [] :=
  ⟨by decide, by decide,
    stavrobot_c1_unauthorized_dropped _ _ _ _ _ _ (by decide) (by decide)⟩


/-! ### Claim C2: agent-call failures (corrected) -/

/-- Counterexample to C2 as stated: for an authorized event with message
text whose agent call returns HTTP 500, `process_signal_event` sends no
reply at all — it performs zero send RPCs, not the one apology reply the
claim asserts.  (The code comment in bridge.py says the bridge does not
reply directly on Signal; the agent replies through the `/send` endpoint.) -/
theorem stavrobot_c2_counterexample :
    (processSignalEvent (fun _ => none) (fun _ _ => .response 500 "error") (fun _ _ => .error ())
      (mkTextEvent "+15551234567" "hi") ["+15551234567"] none).countP isRpcCall = 0 ∧
    ¬ ((processSignalEvent (fun _ => none) (fun _ _ => .response 500 "error") (fun _ _ => .error ())
      (mkTextEvent "+15551234567" "hi") ["+15551234567"] none).countP isRpcCall = 1) := by
  constructor
  · decide
  · decide

/-- C2 amended: for an authorized event with message text whose agent call
fails (non-success status, malformed body, or a transport error —
everything `send_agent_request` can raise), the processor only logs: the
effect trace is exactly the one agent call, with no send RPC, and no error
propagates out of the handler (the embedding is a total function because
`process_signal_event` catches OSError, RuntimeError, JSONDecodeError,
KeyError and TypeError). -/
theorem stavrobot_c2_error_logged_no_reply (jp : String → Option JVal)
    (agent : JVal → JVal → AgentHttp) (transcribe : String → String → Except Unit String)
    (allowedNumbers : List String) (stt? : Option SttConfig) (src m : String)
    (hs : allowedNumbers.contains src = true) (hm : m ≠ "")
    (herr : sendAgentRequest jp agent (.str m) (.str src) = .error ()) :
    processSignalEvent jp agent transcribe (mkTextEvent src m) allowedNumbers stt?
      = [.agentCall (.str m) (.str src)] := by
  have hmsg : ((m : String) == "") = false := by
    simpa using hm
  clear herr
  simp [processSignalEvent, mkTextEvent, dictGet, lookupField, jTruthy, memAllowed, hs, hmsg]
  rcases hres : sendAgentRequest jp agent (.str m) (.str src) with r | r <;> simp [hres] <;>
    simpa using hs

/-- Witness for C2 amended: agent returns HTTP 500. -/
theorem stavrobot_c2_witness :
    (["+15551234567"].contains "+15551234567" = true) ∧ ("hi" : String) ≠ "" ∧
    sendAgentRequest (fun _ => none) (fun _ _ => .response 500 "error")
      (.str "hi") (.str "+15551234567") = .error () ∧
    processSignalEvent (fun _ => none) (fun _ _ => .response 500 "error") (fun _ _ => .error ())
      (mkTextEvent "+15551234567" "hi") ["+15551234567"] none
      = [.agentCall (.str "hi") (.str "+15551234567")] :=
  ⟨by decide, by decide, rfl,
    stavrobot_c2_error_logged_no_reply _ _ _ _ _ _ _ (by decide) (by decide) rfl⟩


/-! ### Claim C4: a bad SSE frame is dropped, the stream continues -/

/-! ### Claim C4: a bad SSE frame is dropped, the stream continues -/

theorem sseLoop_extend (jp : String → Option JVal) (xs : List String) :
    ∀ (rest : List String) (buf : List String), (∀ l ∈ xs, rstripCRLF l ≠ "") →
    sseLoop jp (xs ++ rest) buf = sseLoop jp rest (buf ++ xs.map rstripCRLF) := by
  induction xs with
  | nil => intro rest buf _; simp
  | cons x xs ih =>
      intro rest buf hxs
      have hx : rstripCRLF x ≠ "" := hxs x (by simp)
      simp only [List.cons_append, sseLoop, List.append_eq]
      rw [if_neg hx]
      rw [ih rest (buf ++ [rstripCRLF x]) (fun l hl => hxs l (by simp [hl]))]
      simp

theorem sseLoop_blank_step (jp : String → Option JVal) (rest : List String) (buf : List String)
    (hbuf : parseSseEvent jp buf = none) :
    sseLoop jp ("" :: rest) buf = sseLoop jp rest [] := by
  have h0 : rstripCRLF "" = "" := rfl
  rcases buf with _ | ⟨b, bs⟩
  · simp only [sseLoop]
    rw [if_pos h0]
  · simp only [sseLoop, List.append_eq]
    rw [if_pos h0, hbuf]

theorem sseLoop_deliver_step (jp : String → Option JVal) (rest : List String) (buf : List String)
    (e : JVal) (hbufne : buf ≠ []) (hbuf : parseSseEvent jp buf = some e) (he : jTruthy e = true) :
    sseLoop jp ("" :: rest) buf = e :: sseLoop jp rest [] := by
  have h0 : rstripCRLF "" = "" := rfl
  rcases buf with _ | ⟨b, bs⟩
  · exact absurd rfl hbufne
  · simp only [sseLoop, List.append_eq]
    rw [if_pos h0, hbuf]
    simp [he]

/-- C4: an SSE line group whose data payload does not decode to a
well-formed truthy receive event is discarded without terminating the
stream, and the next well-formed frame is still decoded and handed to the
message processor.  `jp` abstracts `json.loads` (`none` on a decode
error); the conclusion shows the loop delivers exactly the good frame's
event and then continues on the remaining lines with an empty buffer. -/
theorem stavrobot_c4_bad_frame_recovery (jp : String → Option JVal)
    (bad good rest : List String) (e : JVal)
    (hbadlines : ∀ l ∈ bad, rstripCRLF l ≠ "")
    (hbad : parseSseEvent jp (bad.map rstripCRLF) = none)
    (hgoodlines : ∀ l ∈ good, rstripCRLF l ≠ "")
    (hgood : parseSseEvent jp (good.map rstripCRLF) = some e)
    (he : jTruthy e = true) :
    sseLoop jp (bad ++ [""] ++ good ++ [""] ++ rest) [] = e :: sseLoop jp rest [] := by
  have hgoodne : good.map rstripCRLF ≠ [] := by
    intro hnil
    rw [hnil] at hgood
    simp [parseSseEvent] at hgood
  have hassoc : bad ++ [""] ++ good ++ [""] ++ rest = bad ++ ("" :: (good ++ ("" :: rest))) := by
    simp
  rw [hassoc]
  rw [sseLoop_extend jp bad ("" :: (good ++ ("" :: rest))) [] hbadlines]
  rw [List.nil_append]
  rw [sseLoop_blank_step jp (good ++ ("" :: rest)) _ hbad]
  rw [sseLoop_extend jp good ("" :: rest) [] hgoodlines]
  rw [List.nil_append]
  exact sseLoop_deliver_step jp rest _ e hgoodne hgood he

/-- Witness for C4: a frame with undecodable JSON data followed by a
well-formed receive frame. -/
theorem stavrobot_c4_witness :
    (∀ l ∈ ["event: receive", "data: notjson"], rstripCRLF l ≠ "") ∧
    parseSseEvent (fun s => if s = "marker" then some (.obj [("envelope", .null)]) else none)
      (["event: receive", "data: notjson"].map rstripCRLF) = none ∧
    (∀ l ∈ ["event: receive", "data: marker"], rstripCRLF l ≠ "") ∧
    parseSseEvent (fun s => if s = "marker" then some (.obj [("envelope", .null)]) else none)
      (["event: receive", "data: marker"].map rstripCRLF) = some (.obj [("envelope", .null)]) ∧
    jTruthy (.obj [("envelope", .null)]) = true ∧
    sseLoop (fun s => if s = "marker" then some (.obj [("envelope", .null)]) else none)
      (["event: receive", "data: notjson"] ++ [""] ++ ["event: receive", "data: marker"] ++ [""] ++ [])
      [] = JVal.obj [("envelope", .null)] ::
        sseLoop (fun s => if s = "marker" then some (.obj [("envelope", .null)]) else none) [] [] :=
  ⟨by decide, rfl, by decide, rfl, by decide,
    stavrobot_c4_bad_frame_recovery _ _ _ _ _ (by decide) rfl (by decide) rfl (by decide)⟩

/-! ### Claim C6: attachment scanning and transcription (corrected) -/

theorem str_append_ne_empty (a b : String) (h : a ≠ "") : a ++ b ≠ "" := by
  intro he
  have hd := congrArg String.data he
  rw [String.data_append] at hd
  rcases List.append_eq_nil.mp hd with ⟨h1, _⟩
  exact h (String.ext h1)

theorem attFold_str (transcribe : String → String → Except Unit String) (cfg : SttConfig)
    (f : String × String → String) :
    ∀ (atts : List (String × String)) (s : String) (effs : List Effect),
    (∀ p ∈ atts, startsWithStr p.2 "audio/" = true) →
    (∀ p ∈ atts, transcribe (attachmentsDir ++ p.1) p.2 = .ok (f p)) →
    s ≠ "" →
    (atts.map (fun p => attachmentJson p.1 p.2)).foldl (processAttachment transcribe (some cfg))
        (.str s, effs)
      = (.str (s ++ voiceTail (atts.map f)),
         effs ++ atts.map (fun p => Effect.transcribeCall (attachmentsDir ++ p.1) p.2)) := by
  intro atts
  induction atts with
  | nil => intro s effs _ _ _; simp [voiceTail]
  | cons p rest ih =>
      intro s effs hct htr hs
      obtain ⟨a, ct⟩ := p
      simp only [List.map_cons, List.foldl_cons]
      have h1 : startsWithStr ct "audio/" = true := hct (a, ct) (by simp)
      have h2 : transcribe (attachmentsDir ++ a) ct = .ok (f (a, ct)) := htr (a, ct) (by simp)
      have h3 : (s == "") = false := by simpa using hs
      have hstep : processAttachment transcribe (some cfg) (.str s, effs) (attachmentJson a ct)
          = (.str (s ++ "\n" ++ ("[Voice note]: " ++ f (a, ct))),
             effs ++ [Effect.transcribeCall (attachmentsDir ++ a) ct]) := by
        simp [processAttachment, attachmentJson, dictGet, lookupField, h1, h2, jTruthy, h3, pyFormat]
      rw [hstep]
      rw [ih (s ++ "\n" ++ ("[Voice note]: " ++ f (a, ct))) _
        (fun q hq => hct q (by simp [hq])) (fun q hq => htr q (by simp [hq]))
        (str_append_ne_empty _ _ (str_append_ne_empty s _ hs))]
      simp [voiceTail, String.append_assoc]


/-- C6 amended: for an authorized event with transcription configured, the
processor scans all attachments and transcribes every entry whose content
type starts with `audio/` (not only the first), appending
`"\n[Voice note]: <transcript>"` to the message text for each one in
order, the first transcript becoming the sole message when no text was
present; the agent is then called with the assembled text. -/
theorem stavrobot_c6_all_audio_processed (jp : String → Option JVal)
    (agent : JVal → JVal → AgentHttp) (transcribe : String → String → Except Unit String)
    (allowedNumbers : List String) (cfg : SttConfig) (src : String) (msg? : Option String)
    (atts : List (String × String)) (f : String × String → String)
    (hs : allowedNumbers.contains src = true)
    (hm : ∀ m, msg? = some m → m ≠ "")
    (hct : ∀ p ∈ atts, startsWithStr p.2 "audio/" = true)
    (htr : ∀ p ∈ atts, transcribe (attachmentsDir ++ p.1) p.2 = Except.ok (f p))
    (hne : msg?.isSome = true ∨ atts ≠ []) :
    processSignalEvent jp agent transcribe (mkAudioEvent src msg? atts) allowedNumbers (some cfg)
      = atts.map (fun p => Effect.transcribeCall (attachmentsDir ++ p.1) p.2)
        ++ [Effect.agentCall (.str (joinedMessage msg? (atts.map f))) (.str src)] := by
  rcases msg? with _ | m
  · rcases atts with _ | ⟨⟨a, ct⟩, rest⟩
    · rcases hne with hne | hne
      · simp at hne
      · exact absurd rfl hne
    · have h1 : startsWithStr ct "audio/" = true := hct (a, ct) (by simp)
      have h2 : transcribe (attachmentsDir ++ a) ct = .ok (f (a, ct)) := htr (a, ct) (by simp)
      have hstep0 : processAttachment transcribe (some cfg) (JVal.null, []) (attachmentJson a ct)
          = (.str ("[Voice note]: " ++ f (a, ct)), [Effect.transcribeCall (attachmentsDir ++ a) ct]) := by
        simp [processAttachment, attachmentJson, dictGet, lookupField, h1, h2, jTruthy]
      have hrest := attFold_str transcribe cfg f rest ("[Voice note]: " ++ f (a, ct))
        [Effect.transcribeCall (attachmentsDir ++ a) ct]
        (fun q hq => hct q (by simp [hq])) (fun q hq => htr q (by simp [hq]))
        (str_append_ne_empty "[Voice note]: " _ (by decide))
      have hfold : List.foldl (processAttachment transcribe (some cfg)) (JVal.null, [])
          (attachmentJson a ct :: rest.map (fun p => attachmentJson p.1 p.2))
          = (.str (("[Voice note]: " ++ f (a, ct)) ++ voiceTail (rest.map f)),
             Effect.transcribeCall (attachmentsDir ++ a) ct ::
               rest.map (fun p => Effect.transcribeCall (attachmentsDir ++ p.1) p.2)) := by
        rw [List.foldl_cons, hstep0, hrest]
        simp
      have hne2 : ((("[Voice note]: " ++ f (a, ct)) ++ voiceTail (rest.map f)) == "") = false := by
        simpa using str_append_ne_empty _ (voiceTail (rest.map f))
          (str_append_ne_empty "[Voice note]: " _ (by decide))
      simp [processSignalEvent, mkAudioEvent, dictGet, lookupField, jTruthy, memAllowed,
        hs, hfold, hne2, joinedMessage]
      rcases hres : sendAgentRequest jp agent
        (.str (("[Voice note]: " ++ f (a, ct)) ++ voiceTail (rest.map f))) (.str src) with r | r <;>
        simp [hres, String.append_assoc] <;> simpa using hs
  · have hmne : m ≠ "" := hm m rfl
    have hfold := attFold_str transcribe cfg f atts m [] hct htr hmne
    have hne2 : ((m ++ voiceTail (atts.map f)) == "") = false := by
      simpa using str_append_ne_empty m (voiceTail (atts.map f)) hmne
    simp [processSignalEvent, mkAudioEvent, dictGet, lookupField, jTruthy, memAllowed,
      hs, hfold, hne2, joinedMessage]
    rcases hres : sendAgentRequest jp agent
      (.str (m ++ voiceTail (atts.map f))) (.str src) with r | r <;>
      simp [hres, String.append_assoc] <;> simpa using hs


/-- Counterexample to C6 as stated: an authorized event carrying two audio
attachments leads to two transcription calls, not just a transcription of
the first audio entry. -/
theorem stavrobot_c6_counterexample :
    (processSignalEvent (fun _ => none) (fun _ _ => .response 200 "x")
      (fun p _ => .ok (if p = attachmentsDir ++ "a1" then "one" else "two"))
      (mkAudioEvent "+15551234567" (some "hi") [("a1", "audio/ogg"), ("a2", "audio/ogg")])
      ["+15551234567"] (some { apiKey := "k", model := "m" })).countP isTranscribeCall = 2 ∧
    ¬ ((processSignalEvent (fun _ => none) (fun _ _ => .response 200 "x")
      (fun p _ => .ok (if p = attachmentsDir ++ "a1" then "one" else "two"))
      (mkAudioEvent "+15551234567" (some "hi") [("a1", "audio/ogg"), ("a2", "audio/ogg")])
      ["+15551234567"] (some { apiKey := "k", model := "m" })).countP isTranscribeCall = 1) := by
  constructor <;> decide

/-- Witness for C6 amended: both audio attachments of a two-attachment
event are transcribed and both transcripts are appended to the text. -/
theorem stavrobot_c6_witness :
    processSignalEvent (fun _ => none) (fun _ _ => .response 200 "x")
      (fun p _ => .ok (if p = attachmentsDir ++ "a1" then "one" else "two"))
      (mkAudioEvent "+15551234567" (some "hi") [("a1", "audio/ogg"), ("a2", "audio/ogg")])
      ["+15551234567"] (some { apiKey := "k", model := "m" })
      = [("a1", "audio/ogg"), ("a2", "audio/ogg")].map
          (fun p => Effect.transcribeCall (attachmentsDir ++ p.1) p.2)
        ++ [Effect.agentCall
            (.str (joinedMessage (some "hi")
              ([("a1", "audio/ogg"), ("a2", "audio/ogg")].map
                (fun p => if p.1 = "a1" then "one" else "two"))))
            (.str "+15551234567")] :=
  stavrobot_c6_all_audio_processed _ _ _ _ _ _ _ _ _
    (by decide)
    (by intro m h; injection h with h2; subst h2; decide)
    (by decide)
    (by
      intro p hp
      rcases List.mem_cons.mp hp with rfl | hp2
      · rfl
      · rcases List.mem_cons.mp hp2 with rfl | hp3
        · rfl
        · simp at hp3)
    (Or.inl (by decide))


/-! ### Claim C3: /send recipient validation (corrected) -/

/-- Counterexample to C3 as stated: a `/send` request whose recipient is
not a string is answered with 400, not the 403 the claim asserts (403 is
reserved for a well-formed recipient outside the allow-list). -/
theorem stavrobot_c3_counterexample :
    (doPost ["+15551234567"] (fun _ => true) (fun _ => []) (fun _ _ => .ok) "/tmp/att.bin" 0
      "/send" (some (.obj [("recipient", .num 5), ("message", .str "hello")]))).status = some 400 ∧
    ¬ ((doPost ["+15551234567"] (fun _ => true) (fun _ => []) (fun _ _ => .ok) "/tmp/att.bin" 0
      "/send" (some (.obj [("recipient", .num 5), ("message", .str "hello")]))).status = some 403) := by
  constructor <;> decide

/-- C3 amended: if the recipient field is missing, not a string, or the
empty string, the gateway responds 400; if it is a non-empty string not in
the allow-list, the gateway responds 403; in both cases no send RPC is
performed. -/
theorem stavrobot_c3_recipient_validation (allowedNumbers : List String)
    (b64Valid : String → Bool) (parse : String → List Node) (rpc : RpcParams → Nat → RpcResult)
    (tempPath : String) (counter : Nat) (body : JVal) :
    ((∀ r, dictGet body "recipient" = some (.str r) → r = "") →
      (doPost allowedNumbers b64Valid parse rpc tempPath counter "/send" (some body)).status
          = some 400 ∧
      (doPost allowedNumbers b64Valid parse rpc tempPath counter "/send" (some body)).effects = []) ∧
    (∀ r, dictGet body "recipient" = some (.str r) → r ≠ "" →
      allowedNumbers.contains r = false →
      (doPost allowedNumbers b64Valid parse rpc tempPath counter "/send" (some body)).status
          = some 403 ∧
      (doPost allowedNumbers b64Valid parse rpc tempPath counter "/send" (some body)).effects = []) := by
  constructor
  · intro h
    rcases hrec : dictGet body "recipient" with _ | v
    · simp [doPost, hrec]
    · cases v with
      | str r =>
          have hr : r = "" := h r hrec
          subst hr
          simp [doPost, hrec]
      | null => simp [doPost, hrec]
      | bool b => simp [doPost, hrec]
      | num n => simp [doPost, hrec]
      | arr l => simp [doPost, hrec]
      | obj fs => simp [doPost, hrec]
  · intro r hrec hrne hmem
    have hmem2 : ¬ (r ∈ allowedNumbers) := by simpa using hmem
    simp [doPost, hrec, hrne, hmem2]

/-- Witness for C3 amended: a numeric recipient gets 400 with no RPC; a
well-formed recipient outside the allow-list gets 403 with no RPC. -/
theorem stavrobot_c3_witness :
    ((doPost ["+15551234567"] (fun _ => true) (fun _ => []) (fun _ _ => .ok) "/tmp/att.bin" 0
        "/send" (some (.obj [("recipient", .num 5)]))).status = some 400 ∧
      (doPost ["+15551234567"] (fun _ => true) (fun _ => []) (fun _ _ => .ok) "/tmp/att.bin" 0
        "/send" (some (.obj [("recipient", .num 5)]))).effects = []) ∧
    ((doPost ["+15551234567"] (fun _ => true) (fun _ => []) (fun _ _ => .ok) "/tmp/att.bin" 0
        "/send" (some (.obj [("recipient", .str "+15550009999")]))).status = some 403 ∧
      (doPost ["+15551234567"] (fun _ => true) (fun _ => []) (fun _ _ => .ok) "/tmp/att.bin" 0
        "/send" (some (.obj [("recipient", .str "+15550009999")]))).effects = []) :=
  ⟨(stavrobot_c3_recipient_validation ["+15551234567"] (fun _ => true) (fun _ => [])
      (fun _ _ => .ok) "/tmp/att.bin" 0 (.obj [("recipient", .num 5)])).1
      (by intro r h; simp [dictGet, lookupField] at h),
    (stavrobot_c3_recipient_validation ["+15551234567"] (fun _ => true) (fun _ => [])
      (fun _ _ => .ok) "/tmp/att.bin" 0 (.obj [("recipient", .str "+15550009999")])).2
      "+15550009999" rfl (by decide) (by decide)⟩


/-! ### Claim C10: an omitted message field defaults to the empty string -/

/-- C10: a POST /send request whose JSON body omits the message field is
not rejected: the message defaults to the empty string
(`body.get("message", "")`) and the request proceeds through validation
and dispatch — the send RPC is performed with the converted empty message,
and the response status is the RPC outcome (200/502/500), never a
validation rejection (400/403). -/
theorem stavrobot_c10_message_defaults_empty (allowedNumbers : List String)
    (b64Valid : String → Bool) (parse : String → List Node) (rpc : RpcParams → Nat → RpcResult)
    (tempPath : String) (counter : Nat) (body : JVal) (r : String)
    (h1 : dictGet body "recipient" = some (.str r)) (h2 : r ≠ "")
    (h3 : allowedNumbers.contains r = true)
    (h4 : dictGet body "message" = none)
    (h5 : dictGet body "attachment" = none ∨ dictGet body "attachment" = some .null)
    (h6 : dictGet body "attachmentFilename" = none) :
    (doPost allowedNumbers b64Valid parse rpc tempPath counter "/send" (some body)).effects
      = [Effect.rpcCall
          { recipient := [r], message := .str (convertAst (parse "")).1,
            textStyle := if ((convertAst (parse "")).2.map spanEncode).isEmpty then none
              else some ((convertAst (parse "")).2.map spanEncode),
            attachment := none } (counter + 1)] ∧
    (doPost allowedNumbers b64Valid parse rpc tempPath counter "/send" (some body)).status ≠ some 400 ∧
    (doPost allowedNumbers b64Valid parse rpc tempPath counter "/send" (some body)).status ≠ some 403 ∧
    (doPost allowedNumbers b64Valid parse rpc tempPath counter "/send" (some body)).status
      = some (match rpc
          { recipient := [r], message := .str (convertAst (parse "")).1,
            textStyle := if ((convertAst (parse "")).2.map spanEncode).isEmpty then none
              else some ((convertAst (parse "")).2.map spanEncode),
            attachment := none } (counter + 1) with
        | .raised => 500
        | .failed => 502
        | .ok => 200) := by
  have h3m : r ∈ allowedNumbers := by simpa using h3
  have hpost : doPost allowedNumbers b64Valid parse rpc tempPath counter "/send" (some body)
      = { status := some (match rpc
            { recipient := [r], message := .str (convertAst (parse "")).1,
              textStyle := if ((convertAst (parse "")).2.map spanEncode).isEmpty then none
                else some ((convertAst (parse "")).2.map spanEncode),
              attachment := none } (counter + 1) with
          | .raised => 500
          | .failed => 502
          | .ok => 200),
          effects := [Effect.rpcCall
            { recipient := [r], message := .str (convertAst (parse "")).1,
              textStyle := if ((convertAst (parse "")).2.map spanEncode).isEmpty then none
                else some ((convertAst (parse "")).2.map spanEncode),
              attachment := none } (counter + 1)],
          counter := counter + 1 } := by
    rcases h5 with h5 | h5 <;>
      simp [doPost, h1, h2, h3m, h4, h5, h6, counterNext]
  rw [hpost]
  refine ⟨rfl, ?_, ?_, rfl⟩
  · rcases hr : rpc
      { recipient := [r], message := .str (convertAst (parse "")).1,
        textStyle := if ((convertAst (parse "")).2.map spanEncode).isEmpty then none
          else some ((convertAst (parse "")).2.map spanEncode),
        attachment := none } (counter + 1) with _ | _ | _ <;> simp [hr]
  · rcases hr : rpc
      { recipient := [r], message := .str (convertAst (parse "")).1,
        textStyle := if ((convertAst (parse "")).2.map spanEncode).isEmpty then none
          else some ((convertAst (parse "")).2.map spanEncode),
        attachment := none } (counter + 1) with _ | _ | _ <;> simp [hr]

/-- Witness for C10: a body with only a recipient field. -/
theorem stavrobot_c10_witness :
    (doPost ["+15551234567"] (fun _ => true) (fun _ => []) (fun _ _ => .ok) "/tmp/att.bin" 0
        "/send" (some (.obj [("recipient", .str "+15551234567")]))).effects
      = [Effect.rpcCall
          { recipient := ["+15551234567"],
            message := .str (convertAst ((fun (_ : String) => ([] : List Node)) "")).1,
            textStyle := if ((convertAst ((fun (_ : String) => ([] : List Node)) "")).2.map
                spanEncode).isEmpty then none
              else some ((convertAst ((fun (_ : String) => ([] : List Node)) "")).2.map spanEncode),
            attachment := none } 1] ∧
    (doPost ["+15551234567"] (fun _ => true) (fun _ => []) (fun _ _ => .ok) "/tmp/att.bin" 0
        "/send" (some (.obj [("recipient", .str "+15551234567")]))).status ≠ some 400 ∧
    (doPost ["+15551234567"] (fun _ => true) (fun _ => []) (fun _ _ => .ok) "/tmp/att.bin" 0
        "/send" (some (.obj [("recipient", .str "+15551234567")]))).status ≠ some 403 ∧
    (doPost ["+15551234567"] (fun _ => true) (fun _ => []) (fun _ _ => .ok) "/tmp/att.bin" 0
        "/send" (some (.obj [("recipient", .str "+15551234567")]))).status
      = some (match (fun (_ : RpcParams) (_ : Nat) => RpcResult.ok)
          { recipient := ["+15551234567"],
            message := .str (convertAst ((fun (_ : String) => ([] : List Node)) "")).1,
            textStyle := if ((convertAst ((fun (_ : String) => ([] : List Node)) "")).2.map
                spanEncode).isEmpty then none
              else some ((convertAst ((fun (_ : String) => ([] : List Node)) "")).2.map spanEncode),
            attachment := none } 1 with
        | .raised => 500
        | .failed => 502
        | .ok => 200) :=
  stavrobot_c10_message_defaults_empty ["+15551234567"] (fun _ => true)
    (fun _ => []) (fun _ _ => .ok) "/tmp/att.bin" 0 (.obj [("recipient", .str "+15551234567")])
    "+15551234567" rfl (by decide) (by decide) rfl (Or.inl rfl) rfl


/-! ### Claim C9: link text is rendered, inner spans are discarded -/

/-- C9: for a link node whose text contains styled inline content (the
scratch-buffer render produces at least one span), the walker appends the
rendered link text to the output but restores the outer span list
unchanged: the spans computed while rendering the link text are neither
re-offset nor appended. -/
theorem stavrobot_c9_link_discards_inner_spans (url : String) (cs : List Node) (st : ConvSt)
    (hinner : (walkNodes cs { text := "", styles := [] }).styles ≠ []) :
    (walkNode (.link url cs) st).styles = st.styles ∧
    (walkNode (.link url cs) st).text = st.text ++
      (if (walkNodes cs { text := "", styles := [] }).text = "" ∨
          (walkNodes cs { text := "", styles := [] }).text = url then url
       else (walkNodes cs { text := "", styles := [] }).text ++ " (" ++ url ++ ")") := by
  have heq : walkNode (.link url cs) st =
      (if (walkNodes cs { text := "", styles := [] }).text = "" ∨
          (walkNodes cs { text := "", styles := [] }).text = url then appendText url st
       else appendText ((walkNodes cs { text := "", styles := [] }).text ++ " (" ++ url ++ ")") st) := by
    simp [walkNode]
  rw [heq]
  split
  · next h => simp [appendText, h]
  · next h => simp [appendText, h]


/-- Witness for C9: a link whose text is a bold run; the scratch render
records a BOLD span, which is dropped from the final output. -/
theorem stavrobot_c9_witness :
    (walkNode (.link "https://x.example" [Node.strong [Node.text "b"]])
        { text := "", styles := [] }).styles = ({ text := "", styles := [] } : ConvSt).styles ∧
    (walkNode (.link "https://x.example" [Node.strong [Node.text "b"]])
        { text := "", styles := [] }).text = ({ text := "", styles := [] } : ConvSt).text ++
      (if (walkNodes [Node.strong [Node.text "b"]] { text := "", styles := [] }).text = "" ∨
          (walkNodes [Node.strong [Node.text "b"]] { text := "", styles := [] }).text
            = "https://x.example" then "https://x.example"
       else (walkNodes [Node.strong [Node.text "b"]] { text := "", styles := [] }).text
          ++ " (" ++ "https://x.example" ++ ")") := by
  have h1 : walkNodes [Node.strong [Node.text "b"]] { text := "", styles := [] } =
      { text := "b", styles := [{ start := 0, length := 1, style := "BOLD" }] } := by
    have e1 : utf16Length "" = 0 := by decide
    have e2 : utf16Length "b" = 1 := by decide
    simp [walkNodes, walkNode, appendText, applyStyle, e1, e2]
  exact stavrobot_c9_link_discards_inner_spans "https://x.example"
    [Node.strong [Node.text "b"]] { text := "", styles := [] } (by rw [h1]; simp)


/-! ### Claim C8: round-trip of markdown-free plain text -/

theorem plainInline_walk (n : Node) (h : plainInline n = true) (st : ConvSt) :
    walkNode n st = appendText (frag n) st := by
  cases n with
  | text raw => simp [walkNode, frag]
  | softbreak => simp [walkNode, frag]
  | _ => simp [plainInline] at h

theorem appendText_appendText (a b : String) (st : ConvSt) :
    appendText b (appendText a st) = appendText (a ++ b) st := by
  simp [appendText, String.append_assoc]

theorem appendText_empty (st : ConvSt) : appendText "" st = st := by
  simp [appendText]

theorem plainInlineList_walk (cs : List Node) (h : cs.all plainInline = true) (st : ConvSt) :
    walkNodes cs st = appendText (fragList cs) st := by
  induction cs generalizing st with
  | nil => simp [walkNodes, fragList, appendText_empty]
  | cons c rest ih =>
      have h1 : plainInline c = true ∧ rest.all plainInline = true := by
        simpa [List.all_cons, Bool.and_eq_true] using h
      have heq : walkNodes (c :: rest) st = walkNodes rest (walkNode c st) := by
        simp [walkNodes]
      rw [heq, plainInline_walk c h1.1 st, ih h1.2, appendText_appendText]
      simp [fragList]

theorem endsWithStr_append_self (a t : String) : endsWithStr (a ++ t) t = true := by
  simp [endsWithStr, String.data_append]

theorem ensureBlank_of_plain (st : ConvSt)
    (h : st.text = "" ∨ endsWithStr st.text "\n\n" = true) : ensureBlank st = st := by
  rcases h with h | h
  · simp [ensureBlank, h]
  · simp [ensureBlank, h]

theorem plainWalk (ns : List Node) (h : plainDoc ns = true) :
    ∀ st : ConvSt, (st.text = "" ∨ endsWithStr st.text "\n\n" = true) →
    walkNodes ns st = { text := st.text ++ docBody (paraTexts ns), styles := st.styles } := by
  induction ns with
  | nil =>
      intro st _
      simp [walkNodes, paraTexts, docBody]
  | cons n rest ih =>
      intro st hst
      have h1 : plainBlock n = true ∧ plainDoc rest = true := by
        simpa [plainDoc, List.all_cons, Bool.and_eq_true] using h
      have heq : walkNodes (n :: rest) st = walkNodes rest (walkNode n st) := by
        simp [walkNodes]
      rw [heq]
      cases n with
      | blankLine =>
          have hwn : walkNode Node.blankLine st = st := by simp [walkNode]
          rw [hwn, ih h1.2 st hst]
          simp [paraTexts]
      | paragraph cs =>
          have hp : cs.all plainInline = true := by
            have := h1.1
            simp only [plainBlock, Bool.and_eq_true] at this
            exact this.1.1
          have hwn : walkNode (Node.paragraph cs) st =
              appendText "\n\n" (walkNodes cs (ensureBlank st)) := by
            simp [walkNode]
          rw [hwn, ensureBlank_of_plain st hst, plainInlineList_walk cs hp st,
            appendText_appendText]
          have hst2 : (appendText (fragList cs ++ "\n\n") st).text = "" ∨
              endsWithStr (appendText (fragList cs ++ "\n\n") st).text "\n\n" = true := by
            right
            simp only [appendText]
            rw [← String.append_assoc]
            exact endsWithStr_append_self _ _
          rw [ih h1.2 _ hst2]
          simp [appendText, paraTexts, docBody, String.append_assoc]
      | heading cs => simp [plainBlock] at h1
      | strong cs => simp [plainBlock] at h1
      | emphasis cs => simp [plainBlock] at h1
      | strikethrough cs => simp [plainBlock] at h1
      | codespan raw => simp [plainBlock] at h1
      | blockCode raw => simp [plainBlock] at h1
      | text raw => simp [plainBlock] at h1
      | softbreak => simp [plainBlock] at h1
      | linebreak => simp [plainBlock] at h1
      | link url cs => simp [plainBlock] at h1
      | image src => simp [plainBlock] at h1
      | list ordered first? cs => simp [plainBlock] at h1
      | listItem cs => simp [plainBlock] at h1
      | blockQuote cs => simp [plainBlock] at h1
      | thematicBreak => simp [plainBlock] at h1
      | unknown cs => simp [plainBlock] at h1


theorem dropTrailNL_append_of_ne (a b : List Char) (hb : dropTrailNL b ≠ []) :
    dropTrailNL (a ++ b) = a ++ dropTrailNL b := by
  have h : (b.reverse ++ a.reverse).dropWhile (fun c => c == '\n') =
      if ((b.reverse).dropWhile (fun c => c == '\n')).isEmpty then
        (a.reverse).dropWhile (fun c => c == '\n')
      else (b.reverse).dropWhile (fun c => c == '\n') ++ a.reverse :=
    List.dropWhile_append
  have hne : ((b.reverse).dropWhile (fun c => c == '\n')).isEmpty = false := by
    rcases hd : (b.reverse).dropWhile (fun c => c == '\n') with _ | ⟨c, t⟩
    · exact absurd (by simp [dropTrailNL, hd]) hb
    · simp
  simp only [dropTrailNL, List.reverse_append, h, hne, if_false]
  simp

theorem dropTrailNL_append_nl2 (l : List Char) (h : noNL l = true) :
    dropTrailNL (l ++ ['\n', '\n']) = l := by
  have h1 : l.reverse.dropWhile (fun c => c == '\n') = l.reverse := by
    have := congrArg List.reverse (dropTrailNL_of_noNL l h)
    simpa [dropTrailNL] using this
  have h2 : (l ++ ['\n', '\n']).reverse = '\n' :: '\n' :: l.reverse := by simp
  unfold dropTrailNL
  rw [h2, List.dropWhile_cons_of_pos (by decide), List.dropWhile_cons_of_pos (by decide),
    h1, List.reverse_reverse]

theorem joinSep_cons₂ (sep x y : String) (rest : List String) :
    joinSep sep (x :: y :: rest) = x ++ sep ++ joinSep sep (y :: rest) := rfl

theorem joinSep_ne_empty (sep x : String) (rest : List String) (hx : x ≠ "") :
    joinSep sep (x :: rest) ≠ "" := by
  cases rest with
  | nil => simpa [joinSep] using hx
  | cons y ys =>
      rw [joinSep_cons₂]
      exact str_append_ne_empty _ _ (str_append_ne_empty x sep hx)

theorem data_nlnl : ("\n\n" : String).data = ['\n', '\n'] := rfl

theorem rstrip_docBody (fs : List String)
    (hfs : ∀ f ∈ fs, f ≠ "" ∧ noNL f.data = true) :
    rstripNewlines (docBody fs) = joinSep "\n\n" fs := by
  induction fs with
  | nil => rfl
  | cons f rest ih =>
      have hf := hfs f (by simp)
      cases rest with
      | nil =>
          have hbody : docBody [f] = f ++ "\n\n" := by
            simp [docBody]
          rw [hbody]
          have : dropTrailNL (f.data ++ ['\n', '\n']) = f.data :=
            dropTrailNL_append_nl2 f.data hf.2
          apply String.ext
          simpa [rstripNewlines, String.data_append, data_nlnl] using this
      | cons g grest =>
          have hg : g ≠ "" := (hfs g (by simp)).1
          have hJ : joinSep "\n\n" (g :: grest) ≠ "" := joinSep_ne_empty _ _ _ hg
          have ihr := ih (fun q hq => hfs q (by simp [hq]))
          have hRne : dropTrailNL (docBody (g :: grest)).data ≠ [] := by
            intro hnil
            apply hJ
            have : (rstripNewlines (docBody (g :: grest))).data = [] := by
              simpa [rstripNewlines] using hnil
            rw [ihr] at this
            exact String.ext this
          have hbody : docBody (f :: g :: grest) = (f ++ "\n\n") ++ docBody (g :: grest) := by
            simp [docBody, String.append_assoc]
          rw [hbody, joinSep_cons₂]
          apply String.ext
          have hT := dropTrailNL_append_of_ne (f ++ "\n\n").data (docBody (g :: grest)).data hRne
          have : (rstripNewlines ((f ++ "\n\n") ++ docBody (g :: grest))).data
              = (f ++ "\n\n").data ++ dropTrailNL (docBody (g :: grest)).data := by
            simpa [rstripNewlines, String.data_append] using hT
          rw [this]
          have hihdata : dropTrailNL (docBody (g :: grest)).data
              = (joinSep "\n\n" (g :: grest)).data := by
            have := congrArg String.data ihr
            simpa [rstripNewlines] using this
          rw [hihdata]
          simp [String.data_append]

theorem paraTexts_props (ns : List Node) (h : plainDoc ns = true) :
    ∀ f ∈ paraTexts ns, f ≠ "" ∧ noNL f.data = true := by
  induction ns with
  | nil => intro f hf; simp [paraTexts] at hf
  | cons n rest ih =>
      have h1 : plainBlock n = true ∧ plainDoc rest = true := by
        simpa [plainDoc, List.all_cons, Bool.and_eq_true] using h
      intro f hf
      cases n with
      | paragraph cs =>
          have hp := h1.1
          simp only [plainBlock, Bool.and_eq_true] at hp
          have hpt : paraTexts (Node.paragraph cs :: rest) = fragList cs :: paraTexts rest := by
            simp [paraTexts]
          rw [hpt] at hf
          rcases List.mem_cons.mp hf with rfl | hf2
          · refine ⟨?_, hp.2⟩
            have := hp.1.2
            simpa using this
          · exact ih h1.2 f hf2
      | blankLine =>
          have hpt : paraTexts (Node.blankLine :: rest) = paraTexts rest := by
            simp [paraTexts]
          rw [hpt] at hf
          exact ih h1.2 f hf
      | heading cs => simp [plainBlock] at h1
      | strong cs => simp [plainBlock] at h1
      | emphasis cs => simp [plainBlock] at h1
      | strikethrough cs => simp [plainBlock] at h1
      | codespan raw => simp [plainBlock] at h1
      | blockCode raw => simp [plainBlock] at h1
      | text raw => simp [plainBlock] at h1
      | softbreak => simp [plainBlock] at h1
      | linebreak => simp [plainBlock] at h1
      | link url cs => simp [plainBlock] at h1
      | image src => simp [plainBlock] at h1
      | list ordered first? cs => simp [plainBlock] at h1
      | listItem cs => simp [plainBlock] at h1
      | blockQuote cs => simp [plainBlock] at h1
      | thematicBreak => simp [plainBlock] at h1
      | unknown cs => simp [plainBlock] at h1

theorem plain_convert (ns : List Node) (h : plainDoc ns = true) :
    convertAst ns = (renderText ns, []) := by
  have hw := plainWalk ns h { text := "", styles := [] } (Or.inl rfl)
  simp only [convertAst, hw]
  rw [Prod.mk.injEq]
  refine ⟨?_, rfl⟩
  have : ("" : String) ++ docBody (paraTexts ns) = docBody (paraTexts ns) := by
    simp
  rw [this, rstrip_docBody (paraTexts ns) (paraTexts_props ns h)]
  rfl


/-- C8: round-trip idempotence of the markdown converter.  The mistune
parser is external; its behaviour enters through `parse` and the two
hypotheses, which formalise the premise stated in the claim that the plain-text
output contains no markdown syntax: re-parsing it yields a plain document
(paragraphs of plain runs) that denotes exactly that text.  Under these,
feeding the plain-text output back into `convert_markdown` yields the same
plain text and an empty span list. -/
theorem stavrobot_c8_roundtrip (parse : String → List Node) (t0 : String)
    (h1 : plainDoc (parse (convertMarkdown parse t0).1) = true)
    (h2 : renderText (parse (convertMarkdown parse t0).1) = (convertMarkdown parse t0).1) :
    convertMarkdown parse (convertMarkdown parse t0).1 = ((convertMarkdown parse t0).1, []) := by
  have hc := plain_convert (parse (convertMarkdown parse t0).1) h1
  simp only [convertMarkdown] at hc h2 ⊢
  rw [hc]
  simp [h2]

/-- Witness for C8: `"**hello**"` converts to `"hello"` with one BOLD
span; converting `"hello"` again returns `"hello"` with no spans. -/
theorem stavrobot_c8_witness :
    plainDoc (c8parse (convertMarkdown c8parse "**hello**").1) = true ∧
    renderText (c8parse (convertMarkdown c8parse "**hello**").1)
      = (convertMarkdown c8parse "**hello**").1 ∧
    convertMarkdown c8parse (convertMarkdown c8parse "**hello**").1
      = ((convertMarkdown c8parse "**hello**").1, []) := by
  have e0 : utf16Length "" = 0 := by decide
  have e5 : utf16Length "hello" = 5 := by decide
  have hwalk : walkNodes [Node.paragraph [Node.strong [Node.text "hello"]]]
      { text := "", styles := [] }
      = { text := "hello\n\n", styles := [{ start := 0, length := 5, style := "BOLD" }] } := by
    simp [walkNodes, walkNode, ensureBlank, appendText, applyStyle, e0, e5]
  have hp : (convertMarkdown c8parse "**hello**").1 = "hello" := by
    have hparse : c8parse "**hello**" = [Node.paragraph [Node.strong [Node.text "hello"]]] := rfl
    simp only [convertMarkdown, hparse, convertAst, hwalk]
    decide
  have hh1 : plainDoc (c8parse (convertMarkdown c8parse "**hello**").1) = true := by
    rw [hp]
    decide
  have hh2 : renderText (c8parse (convertMarkdown c8parse "**hello**").1)
      = (convertMarkdown c8parse "**hello**").1 := by
    rw [hp]
    decide
  exact ⟨hh1, hh2, stavrobot_c8_roundtrip c8parse "**hello**" hh1 hh2⟩

end Stavrobot
